import Mathlib

/-!
Verification of the SQL-generator engine (`app/page.tsx`).

This file gives a shallow embedding of the data-ingestion and
template-expansion engine: the value coercion shared by the CSV/TSV
parsers, the CSV parser, the placeholder scanners, the per-row script
generator `generateSqlTabs`, the aggregate (double-curly-brace) branch of
`generateSqlScript`, and the state transition performed by
`processManualData` and the JSON branch of `onDrop`.

Strings are modelled through their character lists (`String.data`); the
JavaScript string helpers used by the source (`trim`, `toLowerCase`,
`includes`, `split`, `replace`) are reimplemented below on character
lists so that every definition is executable and kernel-reducible.
-/

namespace SqlGen

/-- Decidable equality for `Except`, used to evaluate the embedded
operations at concrete inputs. -/
instance {ε α : Type} [DecidableEq ε] [DecidableEq α] : DecidableEq (Except ε α) := fun a b =>
  match a, b with
  | .ok x, .ok y =>
    if h : x = y then .isTrue (h ▸ rfl) else .isFalse (fun hh => h (Except.ok.inj hh))
  | .error x, .error y =>
    if h : x = y then .isTrue (h ▸ rfl) else .isFalse (fun hh => h (Except.error.inj hh))
  | .ok _, .error _ => .isFalse (fun hh => Except.noConfusion hh)
  | .error _, .ok _ => .isFalse (fun hh => Except.noConfusion hh)

/-! ## JavaScript string primitives -/

/-- Whitespace recognised by `String.prototype.trim` and by the `\s`
regex class, restricted to the ASCII range (the Unicode space characters
are not modelled; no input in this development contains them). -/
def isJsWs (c : Char) : Bool :=
  c == ' ' || c == '\t' || c == '\n' || c == '\r' || c.toNat == 11 || c.toNat == 12

/-- Character-list version of `String.prototype.trim`. -/
def trimList (l : List Char) : List Char :=
  ((l.dropWhile isJsWs).reverse.dropWhile isJsWs).reverse

/-- Models `text.trim()`. -/
def jsTrim (s : String) : String := ⟨trimList s.data⟩

/-- Models `text.toLowerCase()` (ASCII letters only, as in the source's
use on SQL keywords). -/
def jsToLower (s : String) : String := ⟨s.data.map Char.toLower⟩

/-- Helper for `jsIncludes`: does `sub` occur as a contiguous run in `l`? -/
def listIncludes (sub : List Char) : List Char → Bool
  | [] => sub.isEmpty
  | c :: rest => sub.isPrefixOf (c :: rest) || listIncludes sub rest

/-- Models `s.includes(sub)`. -/
def jsIncludes (s sub : String) : Bool := listIncludes sub.data s.data

/-- Models `String.prototype.split(sep)` for a one-character separator:
`"a\nb".split("\n") = ["a","b"]`, `"".split(x) = [""]`. -/
def splitChar (sep : Char) : List Char → List (List Char)
  | [] => [[]]
  | c :: rest =>
    match splitChar sep rest with
    | [] => if c == sep then [[], []] else [[c]]
    | h :: t => if c == sep then [] :: h :: t else (c :: h) :: t

/-- Models `s.replace(pat, repl)` for a plain-string pattern: only the
first occurrence is replaced.  (`$`-escape sequences in the replacement
string are not interpreted; no claim depends on them.)  An empty pattern
is treated as matching nothing. -/
def replaceFirstAux (pat repl : List Char) : List Char → List Char
  | [] => []
  | c :: rest =>
    if !pat.isEmpty && pat.isPrefixOf (c :: rest)
    then repl ++ (c :: rest).drop pat.length
    else c :: replaceFirstAux pat repl rest

/-- String wrapper for `replaceFirstAux`. -/
def replaceFirstStr (s pat repl : String) : String :=
  ⟨replaceFirstAux pat.data repl.data s.data⟩

/-- Fuelled helper replacing every (non-overlapping, leftmost) occurrence
of `pat`; fuel equal to the list length is always sufficient because
every step consumes at least one character. -/
def replaceAllAux (pat repl : List Char) : Nat → List Char → List Char
  | 0, l => l
  | _ + 1, [] => []
  | f + 1, c :: rest =>
    if !pat.isEmpty && pat.isPrefixOf (c :: rest)
    then repl ++ replaceAllAux pat repl f ((c :: rest).drop pat.length)
    else c :: replaceAllAux pat repl f rest

/-- Models a global regex replacement whose pattern is the literal string
`pat` (which is how the source uses `new RegExp(..., "g")` once the
pattern is free of regex metacharacters). -/
def replaceAllStr (s pat repl : String) : String :=
  ⟨replaceAllAux pat.data repl.data s.data.length s.data⟩

/-- Models `arr.join(sep)`. -/
def joinWith (sep : String) : List String → String
  | [] => ""
  | [x] => x
  | x :: y :: rest => x ++ sep ++ joinWith sep (y :: rest)

/-! ## JavaScript numbers and `Number(string)`

The engine stores row values as JavaScript numbers.  Finite values are
modelled as exact decimals `num / 10 ^ e` (every numeric literal the
parsers accept denotes such a value; the rounding of literals to the
nearest double is not modelled, and the engine performs no arithmetic on
values — it only parses, compares with `===` and prints them).  `NaN`
and the two infinities are explicit constructors because the coercion
step branches on `isNaN`. -/

/-- An exact decimal `num / 10 ^ e`, kept normalized (`e = 0`, or `num`
not divisible by 10) so that structural equality coincides with numeric
equality, as `===` does on numbers. -/
structure Dec where
  num : ℤ
  e : Nat
deriving DecidableEq

/-- Removes common factors of 10 from `num / 10 ^ e`. -/
def normAux : ℤ → Nat → ℤ × Nat
  | n, 0 => (n, 0)
  | n, e + 1 => if n % 10 = 0 then normAux (n / 10) e else (n, e + 1)

/-- Smart constructor producing the normalized form of `n / 10 ^ e`. -/
def Dec.mk' (n : ℤ) (e : Nat) : Dec :=
  ⟨(normAux n e).1, (normAux n e).2⟩

/-- The decimal denoting the integer `z`. -/
def Dec.ofInt (z : ℤ) : Dec := ⟨z, 0⟩

/-- Negation (normalization is preserved). -/
def Dec.neg (d : Dec) : Dec := ⟨-d.num, d.e⟩

/-- Multiplication by `10 ^ z` (used for exponent parts of literals). -/
def Dec.scalePow10 (d : Dec) (z : ℤ) : Dec :=
  if 0 ≤ z then Dec.mk' (d.num * (10 : ℤ) ^ z.toNat) d.e
  else Dec.mk' d.num (d.e + (-z).toNat)

inductive JSNumber where
  | nan
  | posInf
  | negInf
  | finite (d : Dec)
deriving DecidableEq

/-- The ten decimal digit characters. -/
def digitChar (n : Nat) : Char :=
  match n with
  | 0 => '0' | 1 => '1' | 2 => '2' | 3 => '3' | 4 => '4'
  | 5 => '5' | 6 => '6' | 7 => '7' | 8 => '8' | _ => '9'

/-- Numeric value of a decimal digit character. -/
def digitVal (c : Char) : Nat := c.toNat - 48

/-- Fuelled digit expansion; fuel `n + 1` always suffices because the
quotient strictly decreases. -/
def natDecDigitsAux : Nat → Nat → List Char
  | 0, _ => []
  | f + 1, n =>
    if n < 10 then [digitChar n]
    else natDecDigitsAux f (n / 10) ++ [digitChar (n % 10)]

/-- Decimal digit run of `n` (most significant first), the canonical
decimal text of a natural number. -/
def natDecDigits (n : Nat) : List Char := natDecDigitsAux (n + 1) n

/-- Canonical decimal text of a natural number. -/
def natDecRepr (n : Nat) : String := ⟨natDecDigits n⟩

/-- Canonical decimal text of an integer. -/
def intDecRepr (z : ℤ) : String :=
  if z < 0 then "-" ++ natDecRepr z.natAbs else natDecRepr z.natAbs

/-- Value of a digit run read in base 10. -/
def digitsToNat (l : List Char) : Nat :=
  l.foldl (fun a c => a * 10 + digitVal c) 0

/-- Trailing exponent part of a decimal literal: accepts `""` or
`e[+|-]digits` / `E[+|-]digits` and scales accordingly; anything else is
a parse failure. -/
def parseExpPart (q : Dec) (r : List Char) : Option Dec :=
  match r with
  | [] => some q
  | e :: r2 =>
    if e == 'e' || e == 'E' then
      let sr : ℤ × List Char :=
        match r2 with
        | '+' :: t => (1, t)
        | '-' :: t => (-1, t)
        | t => (1, t)
      let ds := sr.2.takeWhile Char.isDigit
      let r4 := sr.2.drop ds.length
      if ds.isEmpty || !r4.isEmpty then none
      else some (q.scalePow10 (sr.1 * (digitsToNat ds : ℤ)))
    else none

/-- The decimal denoted by integer digits `ip` and fraction digits `fp`. -/
def mkDecimal (ip fp : List Char) : Dec :=
  Dec.mk' ((digitsToNat ip : ℤ) * (10 : ℤ) ^ fp.length + (digitsToNat fp : ℤ)) fp.length

/-- `StrUnsignedDecimalLiteral` of ECMAScript `Number(string)`:
`digits[.digits][exp]` or `.digits[exp]`. -/
def parseUnsignedDec (l : List Char) : Option Dec :=
  let ip := l.takeWhile Char.isDigit
  let r1 := l.drop ip.length
  match ip, r1 with
  | [], '.' :: r2 =>
    let fp := r2.takeWhile Char.isDigit
    let r3 := r2.drop fp.length
    if fp.isEmpty then none else parseExpPart (mkDecimal [] fp) r3
  | [], _ => none
  | _, '.' :: r2 =>
    let fp := r2.takeWhile Char.isDigit
    let r3 := r2.drop fp.length
    parseExpPart (mkDecimal ip fp) r3
  | _, _ => parseExpPart (mkDecimal ip []) r1

/-- Hexadecimal digit value. -/
def hexVal (c : Char) : Option Nat :=
  if c.isDigit then some (digitVal c)
  else if 'a' ≤ c ∧ c ≤ 'f' then some (c.toNat - 87)
  else if 'A' ≤ c ∧ c ≤ 'F' then some (c.toNat - 55)
  else none

/-- Octal digit value. -/
def octVal (c : Char) : Option Nat :=
  if '0' ≤ c ∧ c ≤ '7' then some (digitVal c) else none

/-- Binary digit value. -/
def binVal (c : Char) : Option Nat :=
  if c == '0' then some 0 else if c == '1' then some 1 else none

/-- Reads a digit run in the given base, failing on any invalid digit. -/
def parseRadixAux (base : Nat) (valid : Char → Option Nat) :
    List Char → Nat → Option Nat
  | [], acc => some acc
  | c :: r, acc =>
    match valid c with
    | some d => parseRadixAux base valid r (acc * base + d)
    | none => none

/-- `NonDecimalIntegerLiteral` of `Number(string)`: `0x…`, `0o…`, `0b…`
(no sign allowed, as in ECMAScript). -/
def parseNonDecInt (l : List Char) : Option Dec :=
  match l with
  | c0 :: x :: rest =>
    if c0 == '0' then
      if x == 'x' || x == 'X' then
        if rest.isEmpty then none
        else (parseRadixAux 16 hexVal rest 0).map (fun n => Dec.ofInt (n : ℤ))
      else if x == 'o' || x == 'O' then
        if rest.isEmpty then none
        else (parseRadixAux 8 octVal rest 0).map (fun n => Dec.ofInt (n : ℤ))
      else if x == 'b' || x == 'B' then
        if rest.isEmpty then none
        else (parseRadixAux 2 binVal rest 0).map (fun n => Dec.ofInt (n : ℤ))
      else none
    else none
  | _ => none

/-- Models the ECMAScript abstract operation `StringToNumber`
(`Number(value)` applied to a string): trim, empty ↦ 0, optional sign on
`Infinity` or a decimal literal, unsigned hex/octal/binary literals,
anything else ↦ `NaN`.  Results are exact decimals: the program's
rounding of long literals to the nearest binary double (for example
`Number("9007199254740993")` is the double `9007199254740992`) is not
modelled, and no theorem below relies on numeric inputs outside the
exactly-representable range (integer texts of magnitude at most
`2 ^ 53`). -/
def strToNumber (s : String) : JSNumber :=
  let t := trimList s.data
  if t.isEmpty then .finite (Dec.ofInt 0)
  else
    match parseNonDecInt t with
    | some q => .finite q
    | none =>
      let sr : Bool × List Char :=
        match t with
        | c :: u =>
          if c == '+' then (false, u)
          else if c == '-' then (true, u)
          else (false, c :: u)
        | [] => (false, [])
      if sr.2 = "Infinity".data then (if sr.1 then .negInf else .posInf)
      else
        match parseUnsignedDec sr.2 with
        | some q => .finite (if sr.1 then q.neg else q)
        | none => .nan

/-! ## Number-to-string rendering (`String(value)` on numbers)

Canonical decimal rendering of the exact decimals that the parsers
produce.  JavaScript's exponent-notation thresholds for very large or
very small magnitudes are not modelled; no claim depends on them. -/

/-- Canonical decimal text of an exact decimal, e.g. `-2.5`, `0.05`.
For a normalized `Dec` with `e > 0` the last fraction digit is nonzero,
so no trailing-zero stripping is needed. -/
def decimalRepr (d : Dec) : String :=
  let sgn := if d.num < 0 then "-" else ""
  let m := d.num.natAbs
  let p := (10 : Nat) ^ d.e
  let ip := m / p
  let fr := m % p
  if fr = 0 then sgn ++ natDecRepr ip
  else
    let ds := natDecDigits fr
    sgn ++ natDecRepr ip ++ "." ++ (⟨List.replicate (d.e - ds.length) '0' ++ ds⟩ : String)

/-- Models `String(n)` for a JavaScript number. -/
def jsNumToString : JSNumber → String
  | .nan => "NaN"
  | .posInf => "Infinity"
  | .negInf => "-Infinity"
  | .finite d => decimalRepr d

/-! ## Row values

The spec's data model (§3): a row maps field names to scalars
`{null, number, string}`; booleans are included because JSON input can
carry them.  `vNum .nan` is representable but unreachable (the coercion
guards on `isNaN` and JSON has no `NaN` literal). -/

inductive Value where
  | vNull
  | vNum (j : JSNumber)
  | vStr (s : String)
  | vBool (b : Bool)
deriving DecidableEq

/-- A parsed row: ordered field-name/value pairs (JavaScript object). -/
abbrev Row := List (String × Value)

/-- Models `row[key]`: `none` is JavaScript `undefined`. -/
def jsLookup (r : Row) (k : String) : Option Value :=
  (r.find? (fun p => p.1 == k)).map Prod.snd

/-- Models `row[header] = value`: replace in place if the key exists
(JavaScript objects keep first-insertion order), else append. -/
def objSet (r : Row) (k : String) (v : Value) : Row :=
  if r.any (fun p => p.1 == k)
  then r.map (fun p => if p.1 == k then (k, v) else p)
  else r ++ [(k, v)]

/-- Models `String(value)` on a row value (`String(null) = "null"`). -/
def jsStringOf : Value → String
  | .vNull => "null"
  | .vNum j => jsNumToString j
  | .vStr s => s
  | .vBool true => "true"
  | .vBool false => "false"

/-! ## Value coercion (§4.3, lines 242-251 and 279-288) -/

/-- Is `c` a straight or single quote? -/
def isQuoteChar (c : Char) : Bool := c == '"' || c == '\''

/-- Drops one leading quote character, if present. -/
def stripLeadQuote : List Char → List Char
  | [] => []
  | c :: rest => if isQuoteChar c then rest else c :: rest

/-- Models `value.replace(/^["']|["']$/g, "")`: one leading and one
trailing quote character are removed. -/
def stripEdgeQuotes (s : String) : String :=
  ⟨(stripLeadQuote (stripLeadQuote s.data).reverse).reverse⟩

/-- The TSV value coercion (lines 279-288): trim, empty or
case-insensitive `null` ↦ null, then `Number(value)` with an `isNaN`
guard, else the string itself. -/
def coerceTSVToken (tok : String) : Value :=
  let v := jsTrim tok
  if v = "" ∨ jsToLower v = "null" then .vNull
  else
    let num := strToNumber v
    if num ≠ JSNumber.nan ∧ v ≠ "" then .vNum num else .vStr v

/-- The CSV value coercion (lines 242-251): identical to the TSV one
except that the token (already trimmed by the line splitter) first has
its surrounding quotes stripped. -/
def coerceCSVToken (tok : String) : Value :=
  let v := stripEdgeQuotes tok
  if v = "" ∨ jsToLower v = "null" then .vNull
  else
    let num := strToNumber v
    if num ≠ JSNumber.nan ∧ v ≠ "" then .vNum num else .vStr v

/-! ## CSV / TSV parsers (lines 206-300) -/

/-- The loop body of `parseCsvLine` (lines 213-233): a straight quote
toggles the in-quotes flag (and is itself dropped), a comma outside
quotes ends the current token, every token is trimmed as it is pushed. -/
def parseCsvLineAux : List Char → List String → List Char → Bool → List String
  | [], res, cur, _ => res ++ [jsTrim ⟨cur⟩]
  | c :: rest, res, cur, inQ =>
    if c == '"' then parseCsvLineAux rest res cur (!inQ)
    else if c == ',' && !inQ then parseCsvLineAux rest (res ++ [jsTrim ⟨cur⟩]) [] inQ
    else parseCsvLineAux rest res (cur ++ [c]) inQ

/-- Models `parseCsvLine` (lines 213-233). -/
def parseCsvLine (line : String) : List String :=
  parseCsvLineAux line.data [] [] false

/-- Models `header.replace(/["']/g, "")` (line 235): every straight or
single quote anywhere in the token is removed. -/
def remAllQuotes (h : String) : String :=
  ⟨h.data.filter (fun c => !(isQuoteChar c))⟩

/-- Builds the row object `{header₁: value₁, …}` (lines 254-257). -/
def rowFromHeaders (headers : List String) (values : List Value) : Row :=
  (headers.zip values).foldl (fun r kv => objSet r kv.1 kv.2) []

/-- Models `parseCSV` (lines 206-263).  The thrown `Error` is modelled
as `Except.error`. -/
def parseCSV (csvText : String) : Except String (List Row) :=
  match splitChar '\n' (trimList csvText.data) with
  | l0 :: l1 :: rest =>
    let headers := (parseCsvLine ⟨l0⟩).map remAllQuotes
    .ok ((l1 :: rest).foldl
      (fun acc lineCs =>
        let line := jsTrim ⟨lineCs⟩
        if line = "" then acc
        else
          let values := (parseCsvLine line).map coerceCSVToken
          if values.length = headers.length
          then acc ++ [rowFromHeaders headers values]
          else acc)
      [])
  | _ => .error "CSV must have at least a header row and one data row"

/-- Models `parseTSV` (lines 266-300): strict tab splitting, trimmed
headers, no quote handling. -/
def parseTSV (tsvText : String) : Except String (List Row) :=
  match splitChar '\n' (trimList tsvText.data) with
  | l0 :: l1 :: rest =>
    let headers := (splitChar '\t' l0).map (fun h => jsTrim ⟨h⟩)
    .ok ((l1 :: rest).foldl
      (fun acc lineCs =>
        let line := jsTrim ⟨lineCs⟩
        if line = "" then acc
        else
          let values := (splitChar '\t' line.data).map (fun v => coerceTSVToken ⟨v⟩)
          if values.length = headers.length
          then acc ++ [rowFromHeaders headers values]
          else acc)
      [])
  | _ => .error "Data must have at least a header row and one data row"

/-! ## Placeholder scanning

`rowTemplate.match(/\{([^}]+)\}/g)` and
`template.match(/\{\{([^}]+)\}\}/g)`: a left-to-right scan for the
leftmost, non-overlapping matches.  Since `[^}]+` cannot contain `}`,
the regex backtracking is trivial and the scan below is exactly the
regex semantics: at a `{` (resp. `{{`) take the maximal run of
non-brace-close characters; it must be non-empty and be followed by `}`
(resp. `}}`), otherwise the scan restarts one character later. -/

/-- Splits `l` as `inner ++ "}" ++ tail` where `inner` is the maximal
run of non-`}` characters; `none` if `l` contains no `}`. -/
def takeToClose : List Char → Option (List Char × List Char)
  | [] => none
  | c :: rest =>
    if c == '}' then some ([], rest)
    else
      match takeToClose rest with
      | some (i, t) => some (c :: i, t)
      | none => none

/-- Matches of `/\{([^}]+)\}/g` (full match texts, e.g. `"{id}"`); the
fuel only serves termination — each step shortens the scanned list, so
fuel equal to the initial length never runs out. -/
def findPhAux : Nat → List Char → List String
  | 0, _ => []
  | _ + 1, [] => []
  | f + 1, '{' :: rest =>
    match takeToClose rest with
    | some (c :: i, tail) => ("\x7b" ++ (⟨c :: i⟩ : String) ++ "\x7d") :: findPhAux f tail
    | _ => findPhAux f rest
  | f + 1, _ :: rest => findPhAux f rest

/-- Matches of `/\{\{([^}]+)\}\}/g` (full match texts, e.g. `"{{id}}"`);
on a failed start the scan restarts one character later, exactly as the
regex engine does. -/
def findAggAux : Nat → List Char → List String
  | 0, _ => []
  | _ + 1, [] => []
  | f + 1, '{' :: '{' :: rest =>
    match takeToClose rest with
    | some (c :: i, '}' :: tail) =>
      ("\x7b\x7b" ++ (⟨c :: i⟩ : String) ++ "\x7d\x7d") :: findAggAux f tail
    | _ => findAggAux f ('{' :: rest)
  | f + 1, _ :: rest => findAggAux f rest

/-- Models `rowTemplate.match(/\{([^}]+)\}/g) || []`. -/
def findPlaceholders (s : String) : List String := findPhAux s.data.length s.data

/-- Models `template.match(/\{\{([^}]+)\}\}/g) || []`. -/
def findAggPlaceholders (s : String) : List String := findAggAux s.data.length s.data

/-- Models `placeholder.replace(/\{|\}/g, "")`: removes every brace. -/
def stripBraces (s : String) : String :=
  ⟨s.data.filter (fun c => !(c == '{' || c == '}'))⟩

/-- One step of `placeholder.replace(/\{\{|\}\}/g, "")`: the regex scans
left to right, removing each `{{` or `}}` it meets. -/
def stripDoubleAux : List Char → List Char
  | [] => []
  | '{' :: '{' :: r => stripDoubleAux r
  | '}' :: '}' :: r => stripDoubleAux r
  | c :: r => c :: stripDoubleAux r

/-- Models `placeholder.replace(/\{\{|\}\}/g, "")`. -/
def stripDoubleBraces (s : String) : String := ⟨stripDoubleAux s.data⟩

/-! ## Per-row substitution (lines 538-556, 562-587, 626-644, 661-679)

The source substitutes each placeholder with
`processedRow.replace(new RegExp(placeholder.replace(/[{}]/g, "\\$&"), "g"), String(replacementValue))`.
Only the braces of the placeholder are escaped, so the constructed
pattern is the literal placeholder text exactly when the placeholder
identifier contains no regular-expression metacharacter.  For
identifiers that do contain metacharacters the construction may throw
(`new RegExp("\\{(\\}")` raises `SyntaxError: unterminated group`) or
match non-literally; both are modelled conservatively as an error
result, and no theorem below claims success for such identifiers. -/

/-- ECMAScript regular-expression syntax characters (plus `]`). -/
def isRegexMeta (c : Char) : Bool :=
  c == '\\' || c == '^' || c == '$' || c == '.' || c == '|' || c == '?' ||
  c == '*' || c == '+' || c == '(' || c == ')' || c == '[' || c == ']'

/-- A placeholder whose brace-escaped form compiles to a regex matching
exactly its literal text: every character is a brace (escaped by the
source) or a non-metacharacter. -/
def regexSafePlaceholder (ph : String) : Bool :=
  ph.data.all (fun c => c == '{' || c == '}' || !(isRegexMeta c))

/-- Global replacement of one placeholder (the `new RegExp(..., "g")`
call followed by `String.prototype.replace`). -/
def substPlaceholder (s ph repl : String) : Except String String :=
  if regexSafePlaceholder ph then .ok (replaceAllStr s ph repl)
  else .error ("regex for placeholder not modelled (JS may throw SyntaxError): " ++ ph)

/-- Fold over `Except`, written out so that proofs can proceed by plain
structural induction (an error aborts the loop, as a thrown exception
aborts the source's `forEach`). -/
def foldlME {σ α : Type} (f : σ → α → Except String σ) : σ → List α → Except String σ
  | s, [] => .ok s
  | s, x :: xs =>
    match f s x with
    | .ok s2 => foldlME f s2 xs
    | .error e => .error e

/-- `mapM` over `Except`, likewise written out (errors propagate left to
right, as thrown exceptions do in the source's `map` loops). -/
def mapME {α β : Type} (f : α → Except String β) : List α → Except String (List β)
  | [] => .ok []
  | x :: xs =>
    match f x, mapME f xs with
    | .ok y, .ok ys => .ok (y :: ys)
    | .error e, _ => .error e
    | .ok _, .error e => .error e

/-- Replacement text for `row[key]` under the rule of the `ALL` and
batch loops (lines 544-550): only a missing key (`undefined`) becomes
`NULL`; a JSON `null` value flows into `String(null) = "null"`. -/
def replacementAll (r : Row) (key : String) : String :=
  match jsLookup r key with
  | none => "NULL"
  | some (.vStr s) => "'" ++ replaceAllStr s "'" "''" ++ "'"
  | some v => jsStringOf v

/-- Substitutes every placeholder of `rt` into `rt` for row `r` with the
`ALL`-loop replacement rule. -/
def processCore (rt : String) (r : Row) : Except String String :=
  foldlME
    (fun acc ph => substPlaceholder acc ph (replacementAll r (stripBraces ph)))
    rt (findPlaceholders rt)

/-- A substituted row of the `ALL` / batch loops, wrapped in parentheses
(line 555). -/
def processRowAll (rt : String) (r : Row) : Except String String :=
  match processCore rt r with
  | .ok s => .ok ("(" ++ s ++ ")")
  | .error e => .error e

/-- The classification loop (lines 562-587): here both `undefined` and
`null` become `NULL` and raise the row's `hasNull` flag. -/
def processRowClassify (rt : String) (r : Row) : Except String (String × Bool) :=
  match foldlME
      (fun acc ph =>
        let key := stripBraces ph
        let rv : String × Bool :=
          match jsLookup r key with
          | none => ("NULL", true)
          | some .vNull => ("NULL", true)
          | some (.vStr s) => ("'" ++ replaceAllStr s "'" "''" ++ "'", false)
          | some v => (jsStringOf v, false)
        match substPlaceholder acc.1 ph rv.1 with
        | .ok s2 => Except.ok (s2, acc.2 || rv.2)
        | .error e => Except.error e)
      (rt, false) (findPlaceholders rt) with
  | .ok sb => .ok ("(" ++ sb.1 ++ ")", sb.2)
  | .error e => .error e

/-! ## The VALUES clause regex (lines 525, 158)

`template.match(/VALUES\s*\((.*)\)/is)`: the leftmost position at which
`VALUES` (case-insensitively) followed by whitespace and `(` matches;
the greedy `(.*)` with the `s` flag captures everything from there to
the last `)` of the whole string. -/

/-- Case-insensitive prefix test. -/
def ciPrefix : List Char → List Char → Bool
  | [], _ => true
  | _ :: _, [] => false
  | p :: ps, c :: cs => p.toLower == c.toLower && ciPrefix ps cs

/-- Capture up to (excluding) the last `)` of `l`; `none` if `l` has no
`)`. -/
def captureToLastParen (l : List Char) : Option (List Char) :=
  match l.reverse.dropWhile (fun c => !(c == ')')) with
  | [] => none
  | _ :: revCap => some revCap.reverse

/-- Attempts the pattern `VALUES\s*\((.*)\)` at the head of `l`. -/
def tryValuesAt (l : List Char) : Option (List Char) :=
  if ciPrefix "VALUES".data l then
    let r1 := l.drop 6
    let r2 := r1.dropWhile isJsWs
    match r2 with
    | '(' :: r3 => captureToLastParen r3
    | _ => none
  else none

/-- Scans every start position, leftmost first. -/
def findValuesAux : List Char → Nat → Option (Nat × String)
  | [], _ => none
  | l@(_ :: rest), i =>
    match tryValuesAt l with
    | some cap => some (i, ⟨cap⟩)
    | none => findValuesAux rest (i + 1)

/-- Models `processedTemplate.match(/VALUES\s*\((.*)\)/is)`, returning
the match index and the captured row template. -/
def findValuesClause (s : String) : Option (Nat × String) :=
  findValuesAux s.data 0

/-- Models `processedTemplate.substring(0, valuesMatch.index)`. -/
def takeChars (s : String) (n : Nat) : String := ⟨s.data.take n⟩

/-! ## Batch partitioning (lines 620-656) -/

/-- The script-variant kinds of the `SqlTab` type (line 39). -/
inductive TabType where
  | all
  | withoutNull
  | withNull
  | batch
deriving DecidableEq

/-- The `SqlTab` record (lines 34-40); the UI-only `id` of the React key
is kept as the source writes it (`"all"`, `"batch-3"`, …). -/
structure SqlTab where
  id : String
  name : String
  script : String
  rowCount : Nat
  type : TabType
deriving DecidableEq

/-- The chunks `jsonData.slice(i, i + b)` for `i = 0, b, 2b, …` of the
batch loop, written with fuel; fuel `l.length` is exact for `b ≥ 1`
since every iteration consumes at least one row. -/
def chunkAux {α : Type} (b : Nat) : Nat → List α → List (List α)
  | 0, _ => []
  | _ + 1, [] => []
  | f + 1, c :: cs => (c :: cs).take b :: chunkAux b f ((c :: cs).drop b)

/-- The batch partition of the full row list (for `b ≥ 1`). -/
def batchChunks {α : Type} (b : Nat) (rows : List α) : List (List α) :=
  chunkAux b rows.length rows

/-- Termination of the loop head `for (let i = 0; i < len; i += batchSize)`
(line 622): after `k` iterations the index is `k * batchSize`, and the
loop exits iff some iterate reaches `len`.  For `batchSize ≤ 0 < len`
no iterate ever does and the source loops forever. -/
def batchLoopTerminates (batchSize : ℤ) (len : Nat) : Prop :=
  ∃ k : Nat, (len : ℤ) ≤ (k : ℤ) * batchSize

/-- The batch-tab loop (lines 622-655): for each chunk, rebuild the row
strings with the `ALL` rule, join them, and push a `Batch <n>` tab if
the joined script is non-empty.  `k` is the 1-based batch number
`Math.floor(i / batchSize) + 1`. -/
def buildBatches (rt pre : String) (b : Nat) : Nat → Nat → List Row → Except String (List SqlTab)
  | 0, _, _ => .ok []
  | _ + 1, _, [] => .ok []
  | f + 1, k, c :: cs =>
    match mapME (processRowAll rt) ((c :: cs).take b) with
    | .error e => .error e
    | .ok strs =>
      let s := joinWith ",\n" strs
      match buildBatches rt pre b f (k + 1) ((c :: cs).drop b) with
      | .error e => .error e
      | .ok rest =>
        .ok ((if s ≠ "" then
                [⟨"batch-" ++ natDecRepr k, "Batch " ++ natDecRepr k,
                  pre ++ s, ((c :: cs).take b).length, .batch⟩]
              else []) ++ rest)

/-! ## The per-row script generator `generateSqlTabs` (lines 522-689) -/

/-- Models `generateSqlTabs(processedTemplate)` acting on the loaded
rows and batch size.  Exceptions (including the unmodelled-regex case)
are `Except.error`; the `setErrors` early return of line 527 fires both
when the regex does not match and when its capture is empty
(`if (!valuesMatch || !valuesMatch[1])` — the empty string is falsy).
For `batchSize ≤ 0` with more rows than the batch size the source's
batch loop never terminates; this is modelled as an error result (see
`batchLoopTerminates`). -/
def generateSqlTabs (rows : List Row) (batchSize : ℤ) (tpl : String) :
    Except String (List SqlTab) :=
  if jsIncludes (jsToLower tpl) "values" then
    match findValuesClause tpl with
    | none => .error "Invalid SQL template. Could not find a 'VALUES (...)' clause."
    | some (idx, rowTemplate) =>
      if rowTemplate = "" then
        .error "Invalid SQL template. Could not find a 'VALUES (...)' clause."
      else
      let insertStatement :=
        if jsIncludes (jsToLower tpl) "insert into"
        then takeChars tpl idx ++ "VALUES\n"
        else "VALUES\n"
      match mapME (processRowAll rowTemplate) rows,
            mapME (processRowClassify rowTemplate) rows with
      | .ok allRowStrs, .ok classified =>
        let rowsWithoutNull := (classified.filter (fun p => !p.2)).map Prod.fst
        let rowsWithNull := (classified.filter (fun p => p.2)).map Prod.fst
        let base :=
          [(⟨"all", "ALL", insertStatement ++ joinWith ",\n" allRowStrs,
             rows.length, .all⟩ : SqlTab)]
          ++ (if rowsWithoutNull.length > 0 then
                [(⟨"without-null", "Without NULL values",
                   insertStatement ++ joinWith ",\n" rowsWithoutNull,
                   rowsWithoutNull.length, .withoutNull⟩ : SqlTab)]
              else [])
          ++ (if rowsWithNull.length > 0 then
                [(⟨"with-null", "With NULL values",
                   insertStatement ++ joinWith ",\n" rowsWithNull,
                   rowsWithNull.length, .withNull⟩ : SqlTab)]
              else [])
        if batchSize < (rows.length : ℤ) then
          if 1 ≤ batchSize then
            match buildBatches rowTemplate insertStatement batchSize.toNat
                rows.length 1 rows with
            | .ok batchTabs => .ok (base ++ batchTabs)
            | .error e => .error e
          else .error "batch loop does not terminate for batchSize <= 0"
        else .ok base
      | .error e, _ => .error e
      | .ok _, .error e => .error e
  else
    match mapME (processCore tpl) rows with
    | .ok stmts =>
      .ok [(⟨"all", "ALL", joinWith "\n" stmts, rows.length, .all⟩ : SqlTab)]
    | .error e => .error e

/-! ## The aggregate (`{{key}}`) branch of `generateSqlScript`
(lines 434-497) -/

/-- Formatting of one aggregate value (lines 447, 478):
`typeof value === "string" ? `'${value.replace(/'/g, "''")}'` : String(value)`.
The unreachable `undefined` case renders as `String(undefined)`. -/
def fmtAggValue : Option Value → String
  | some (.vStr s) => "'" ++ replaceAllStr s "'" "''" ++ "'"
  | some v => jsStringOf v
  | none => "undefined"

/-- `row[key] !== null && row[key] !== undefined` for one row. -/
def rowHasVal (r : Row) (key : String) : Bool :=
  match jsLookup r key with
  | some v => !(v == Value.vNull)
  | none => false

/-- The deduplicated, null-dropped value list of the `ALL` tab
(lines 444-447): collect `row[key]`, keep non-null first occurrences
(`arr.indexOf(value) === index` under `===`), format each. -/
def aggValues (rows : List Row) (key : String) : List String :=
  let arr := rows.map (fun r => jsLookup r key)
  (((List.range arr.length).zip arr).filter
      (fun p =>
        !(p.2 == none) && !(p.2 == some Value.vNull) && List.indexOf p.2 arr == p.1)).map
    (fun p => fmtAggValue p.2)

/-- The value list of the `WITHOUT-NULL` tab (lines 475-478), computed
by the very same expression as `aggValues`. -/
def aggValuesWithoutNull (rows : List Row) (key : String) : List String :=
  let arr := rows.map (fun r => jsLookup r key)
  (((List.range arr.length).zip arr).filter
      (fun p =>
        !(p.2 == none) && !(p.2 == some Value.vNull) && List.indexOf p.2 arr == p.1)).map
    (fun p => fmtAggValue p.2)

/-- The double-curly-brace branch of `generateSqlScript`
(lines 438-497): substitute each aggregate match (first occurrence, as
`String.prototype.replace` with a string pattern does) with the joined
value list; always emit `ALL`; emit `WITHOUT-NULL` iff **some** match's
key has a non-null value in some row (the `.some(...)` of line 465),
with row count the number of rows where **all** matches' keys are
non-null (lines 487-492). -/
def generateSqlScriptAgg (rows : List Row) (tpl : String) : List SqlTab :=
  let ms := findAggPlaceholders tpl
  let processed := ms.foldl
    (fun acc ph =>
      replaceFirstStr acc ph
        (joinWith "," (aggValues rows (stripDoubleBraces ph)))) tpl
  let allTab : SqlTab := ⟨"all", "ALL", processed, rows.length, .all⟩
  let hasNonNullValues :=
    ms.any (fun ph => rows.any (fun r => rowHasVal r (stripDoubleBraces ph)))
  if hasNonNullValues then
    let withoutNullTemplate := ms.foldl
      (fun acc ph =>
        replaceFirstStr acc ph
          (joinWith "," (aggValuesWithoutNull rows (stripDoubleBraces ph)))) tpl
    [allTab,
     ⟨"without-null", "Without NULL values", withoutNullTemplate,
      (rows.filter (fun r => ms.all (fun ph => rowHasVal r (stripDoubleBraces ph)))).length,
      .withoutNull⟩]
  else [allTab]

/-! ## JSON values, validation and engine state
(lines 50-64, 114-133, 319-348, 360-407) -/

/-- A parsed JSON document (`JSON.parse` output; `undefined` cannot
occur). -/
inductive JSValue where
  | jnull
  | jbool (b : Bool)
  | jnum (d : Dec)
  | jstr (s : String)
  | jarr (elems : List JSValue)
  | jobj (fields : List (String × JSValue))

/-- `Array.isArray(v)`. -/
def jsIsArray : JSValue → Bool
  | .jarr _ => true
  | _ => false

/-- `typeof v === "object" && v !== null` (arrays are objects too). -/
def jsIsObject : JSValue → Bool
  | .jarr _ => true
  | .jobj _ => true
  | _ => false

/-- JavaScript truthiness of a parsed JSON value. -/
def jsTruthy : JSValue → Bool
  | .jnull => false
  | .jbool b => b
  | .jnum d => !(d.num == 0)
  | .jstr s => !(s == "")
  | .jarr _ => true
  | .jobj _ => true

/-- Property access `v.name` on a non-null JSON value: object fields by
first binding (`JSON.parse` keeps the last duplicate, so its output has
no duplicate keys); every other value has no such property
(`undefined`). -/
def jsProp (v : JSValue) (name : String) : Option JSValue :=
  match v with
  | .jobj fields => (fields.find? (fun p => p.1 == name)).map Prod.snd
  | _ => none

/-- Models `validateJson` (lines 114-133): array, non-empty, first
element a non-null object; the checks short-circuit. -/
def validateJson (v : JSValue) : List String :=
  match v with
  | .jarr data =>
    match data with
    | [] => ["JSON array cannot be empty"]
    | d0 :: _ => if jsIsObject d0 then [] else ["Array elements must be objects"]
  | _ => ["JSON must be an array of objects"]

/-- The JSON branch of `onDrop` (lines 380-387): after `JSON.parse`,
unwrap to `data.collectPoints` when that field is a (truthy) array.
Reading a property of `null` throws a `TypeError`, landing in the catch
block. -/
def unwrapCollectPoints (data : JSValue) : Except String JSValue :=
  match data with
  | .jnull => .error "TypeError: Cannot read properties of null"
  | _ =>
    match jsProp data "collectPoints" with
    | some v => if jsTruthy v && jsIsArray v then .ok v else .ok data
    | none => .ok data

/-- The engine-relevant React state of `Home` (lines 50-62). -/
structure EngineState where
  jsonData : Option JSValue
  sqlTabs : List SqlTab
  activeTab : Nat
  errors : List String
  fileName : String
  isLoading : Bool

/-- Models `processManualData` (lines 320-348).  The composite parser
`parseDataText` (JSON first, then TSV/CSV sniffing) is passed as a
parameter; its thrown errors are `Except.error`. -/
def processManualData (parseDataText : String → Except String JSValue)
    (manualData : String) (s : EngineState) : EngineState :=
  if jsTrim manualData = "" then { s with errors := ["Please enter some data"] }
  else
    let s1 := { s with isLoading := true, errors := [], fileName := "Manual Input" }
    let s2 :=
      match parseDataText manualData with
      | .ok processedData =>
        let validationErrors := validateJson processedData
        if validationErrors ≠ []
        then { s1 with errors := validationErrors, jsonData := none }
        else { s1 with jsonData := some processedData, sqlTabs := [], activeTab := 0 }
      | .error msg =>
        { s1 with errors := ["Invalid data format: " ++ msg], jsonData := none }
    { s2 with isLoading := false }

/-! ## Concrete fixtures used by the theorems below -/

/-- The RowSet `[{"id":1,"name":"A"},{"id":2,"name":null}]` of the spec
scenario. -/
def rows0 : List Row :=
  [[("id", Value.vNum (JSNumber.finite (Dec.ofInt 1))), ("name", Value.vStr "A")],
   [("id", Value.vNum (JSNumber.finite (Dec.ofInt 2))), ("name", Value.vNull)]]

/-- The template of the spec scenario. -/
def tpl0 : String := "INSERT INTO t (id,name) VALUES ({id},{name});"

/-- The preserved prefix produced for `tpl0`. -/
def pre0 : String := "INSERT INTO t (id,name) VALUES\n"

/-- The `ALL` tab produced for `rows0` / `tpl0`. -/
def tabAll0 : SqlTab := ⟨"all", "ALL", pre0 ++ "(1,'A'),\n(2,null)", 2, .all⟩

/-- The `WITHOUT-NULL` tab produced for `rows0` / `tpl0`. -/
def tabWN0 : SqlTab := ⟨"without-null", "Without NULL values", pre0 ++ "(1,'A')", 1, .withoutNull⟩

/-- The `WITH-NULL` tab produced for `rows0` / `tpl0`. -/
def tabWNull0 : SqlTab := ⟨"with-null", "With NULL values", pre0 ++ "(2,NULL)", 1, .withNull⟩

/-- The tab list produced for `rows0` / `tpl0` with batch size 1. -/
def tabsBatch0 : List SqlTab :=
  [tabAll0, tabWN0, tabWNull0,
   ⟨"batch-1", "Batch 1", pre0 ++ "(1,'A')", 1, .batch⟩,
   ⟨"batch-2", "Batch 2", pre0 ++ "(2,null)", 1, .batch⟩]

/-- A single-row RowSet whose key `a` has a value and whose key `b` is
null everywhere. -/
def rowsAB : List Row :=
  [[("a", Value.vNum (JSNumber.finite (Dec.ofInt 1))), ("b", Value.vNull)]]

/-- An aggregate template naming both keys of `rowsAB`. -/
def tplAB : String := "S {{a}} {{b}}"

/-- A previously loaded engine state holding a valid RowSet and one
generated variant. -/
def stateEx : EngineState :=
  ⟨some (.jarr [.jobj [("id", .jnum (Dec.ofInt 1))]]),
   [⟨"all", "ALL", "SELECT 1", 1, .all⟩], 0, [], "data.json", false⟩

/-- An API-envelope-shaped JSON object whose array field is not called
`collectPoints`. -/
def envItems : List (String × JSValue) :=
  [("items", .jarr [.jobj [("id", .jnum (Dec.ofInt 1))]])]

/-! # Helper lemmas -/

/-- Facts about the ten digit characters, proved by evaluation. -/
theorem digitChar_facts : ∀ d < 10,
    digitVal (digitChar d) = d ∧ (digitChar d).isDigit = true ∧
    isJsWs (digitChar d) = false ∧ (digitChar d).toLower = digitChar d ∧
    digitChar d ≠ 'n' ∧ digitChar d ≠ 'I' ∧
    ((digitChar d == '+') = false ∧ (digitChar d == '-') = false) ∧
    ((digitChar d == 'x') = false ∧ (digitChar d == 'X') = false ∧
     (digitChar d == 'o') = false ∧ (digitChar d == 'O') = false ∧
     (digitChar d == 'b') = false ∧ (digitChar d == 'B') = false) := by
  decide

/-- `natDecDigits` produces a non-empty run of digit characters whose
base-10 value is `n` (fuelled form). -/
theorem natDecDigitsAux_ok : ∀ (f n : Nat), n < f →
    natDecDigitsAux f n ≠ [] ∧
    (∀ c ∈ natDecDigitsAux f n, ∃ d, d < 10 ∧ c = digitChar d) ∧
    digitsToNat (natDecDigitsAux f n) = n := by
  intro f
  induction f with
  | zero => intro n hn; omega
  | succ f ih =>
    intro n hn
    by_cases h10 : n < 10
    · refine ⟨by simp [natDecDigitsAux, h10], ?_, ?_⟩
      · intro c hc
        simp [natDecDigitsAux, h10] at hc
        exact ⟨n, h10, hc⟩
      · simp [natDecDigitsAux, h10, digitsToNat]
        exact (digitChar_facts n h10).1
    · have hdiv : n / 10 < f := by
        have h1 : n / 10 < n := Nat.div_lt_self (by omega) (by omega)
        omega
      obtain ⟨hne, hdig, hval⟩ := ih (n / 10) hdiv
      refine ⟨by simp [natDecDigitsAux, h10], ?_, ?_⟩
      · intro c hc
        simp only [natDecDigitsAux, h10, if_false, List.mem_append,
          List.mem_singleton] at hc
        rcases hc with hc | hc
        · exact hdig c hc
        · exact ⟨n % 10, by omega, hc⟩
      · simp only [natDecDigitsAux, h10, if_false, digitsToNat, List.foldl_append,
          List.foldl_cons, List.foldl_nil]
        have : digitVal (digitChar (n % 10)) = n % 10 :=
          (digitChar_facts (n % 10) (by omega)).1
        unfold digitsToNat at hval
        rw [hval, this]
        omega

/-- The canonical digit run of `n`. -/
theorem natDecDigits_ok (n : Nat) :
    natDecDigits n ≠ [] ∧
    (∀ c ∈ natDecDigits n, ∃ d, d < 10 ∧ c = digitChar d) ∧
    digitsToNat (natDecDigits n) = n :=
  natDecDigitsAux_ok (n + 1) n (by omega)

/-- `dropWhile` is the identity when no element satisfies the
predicate. -/
theorem dropWhile_eq_self_of_none {α : Type} (p : α → Bool) :
    ∀ (l : List α), (∀ c ∈ l, p c = false) → l.dropWhile p = l := by
  intro l h
  cases l with
  | nil => rfl
  | cons c cs => simp [List.dropWhile, h c (List.mem_cons_self c cs)]

/-- `trimList` is the identity on whitespace-free lists. -/
theorem trimList_eq_self (l : List Char) (h : ∀ c ∈ l, isJsWs c = false) :
    trimList l = l := by
  unfold trimList
  rw [dropWhile_eq_self_of_none isJsWs l h]
  rw [dropWhile_eq_self_of_none isJsWs l.reverse (fun c hc => h c (List.mem_reverse.mp hc))]
  exact List.reverse_reverse l

/-- `takeWhile` is the identity when every element satisfies the
predicate. -/
theorem takeWhile_eq_self_of_all {α : Type} (p : α → Bool) :
    ∀ (l : List α), (∀ c ∈ l, p c = true) → l.takeWhile p = l := by
  intro l
  induction l with
  | nil => intro _; rfl
  | cons c cs ih =>
    intro h
    rw [List.takeWhile_cons, h c (List.mem_cons_self c cs)]
    simp only [if_true]
    rw [ih (fun x hx => h x (List.mem_cons_of_mem c hx))]

/-- Decimal digit runs parse through `parseUnsignedDec` to the plain
integer they denote. -/
theorem parseUnsignedDec_digits (l : List Char) (hne : l ≠ [])
    (hdig : ∀ c ∈ l, ∃ d, d < 10 ∧ c = digitChar d) :
    parseUnsignedDec l = some (mkDecimal l []) := by
  have hall : ∀ c ∈ l, c.isDigit = true := by
    intro c hc
    obtain ⟨d, hd, rfl⟩ := hdig c hc
    exact (digitChar_facts d hd).2.1
  have htake : l.takeWhile Char.isDigit = l := takeWhile_eq_self_of_all _ l hall
  obtain ⟨c, cs, rfl⟩ : ∃ c cs, l = c :: cs := by
    cases l with
    | nil => exact absurd rfl hne
    | cons c cs => exact ⟨c, cs, rfl⟩
  simp only [parseUnsignedDec, htake, List.drop_length]
  rfl

/-- `parseNonDecInt` rejects pure decimal digit runs (the second
character of a `0x…`-style literal is never a digit). -/
theorem parseNonDecInt_digits (l : List Char)
    (hdig : ∀ c ∈ l, ∃ d, d < 10 ∧ c = digitChar d) :
    parseNonDecInt l = none := by
  cases l with
  | nil => rfl
  | cons c0 rest =>
    cases rest with
    | nil => rfl
    | cons x rest2 =>
      obtain ⟨d, hd, rfl⟩ := hdig x (by simp)
      have hx := (digitChar_facts d hd).2.2.2.2.2.2.2
      by_cases hc0 : (c0 == '0') = true
      · simp [parseNonDecInt, hc0, hx.1, hx.2.1, hx.2.2.1, hx.2.2.2.1,
          hx.2.2.2.2.1, hx.2.2.2.2.2]
      · simp [parseNonDecInt, hc0]

/-- The canonical decimal text of an integer parses back to that
integer under `Number(string)`. -/
theorem strToNumber_intDecRepr (z : ℤ) :
    strToNumber (intDecRepr z) = .finite (Dec.ofInt z) := by
  obtain ⟨hne, hdig, hval⟩ := natDecDigits_ok z.natAbs
  have hws : ∀ c ∈ natDecDigits z.natAbs, isJsWs c = false := by
    intro c hc
    obtain ⟨d, hd, rfl⟩ := hdig c hc
    exact (digitChar_facts d hd).2.2.1
  obtain ⟨c, cs, hl⟩ : ∃ c cs, natDecDigits z.natAbs = c :: cs := by
    cases h : natDecDigits z.natAbs with
    | nil => exact absurd h hne
    | cons c cs => exact ⟨c, cs, rfl⟩
  obtain ⟨d, hd, hcd⟩ := hdig c (by rw [hl]; exact List.mem_cons_self c cs)
  have hdigl : ∀ x ∈ c :: cs, ∃ d, d < 10 ∧ x = digitChar d := by rw [← hl]; exact hdig
  have hInf : ("Infinity".data) = 'I' :: ['n', 'f', 'i', 'n', 'i', 't', 'y'] := rfl
  have hnotInf : ¬(c :: cs = "Infinity".data) := by
    rw [hInf]
    intro h
    have hc := (List.cons.injEq _ _ _ _ ▸ h).1
    exact (digitChar_facts d hd).2.2.2.2.2.1 (hcd ▸ hc)
  have hplus : (c == '+') = false := hcd ▸ (digitChar_facts d hd).2.2.2.2.2.2.1.1
  have hminus : (c == '-') = false := hcd ▸ (digitChar_facts d hd).2.2.2.2.2.2.1.2
  have hmk : mkDecimal (c :: cs) [] = Dec.ofInt (z.natAbs : ℤ) := by
    have h0 : digitsToNat (c :: cs) = z.natAbs := hl ▸ hval
    simp [mkDecimal, h0, Dec.mk', Dec.ofInt, normAux, show digitsToNat [] = 0 from rfl]
  by_cases hz : z < 0
  · have hdata : (intDecRepr z).data = '-' :: (c :: cs) := by
      rw [← hl]
      simp [intDecRepr, hz, natDecRepr]
    have hws2 : ∀ x ∈ '-' :: (c :: cs), isJsWs x = false := by
      intro x hx
      rcases List.mem_cons.mp hx with rfl | hx
      · rfl
      · exact hws x (hl ▸ hx)
    have hznabs : -((z.natAbs : ℕ) : ℤ) = z := by omega
    simp only [strToNumber, hdata, trimList_eq_self _ hws2]
    rw [show (('-' :: (c :: cs)).isEmpty) = false from rfl]
    simp only [Bool.false_eq_true, if_false]
    rw [show parseNonDecInt ('-' :: (c :: cs)) = none by
      simp [parseNonDecInt]]
    simp only [show (('-' : Char) == '+') = false from rfl,
      show (('-' : Char) == '-') = true from rfl, Bool.false_eq_true, if_false, if_true]
    rw [if_neg hnotInf]
    rw [parseUnsignedDec_digits (c :: cs) (by simp) hdigl]
    simp only [if_true, hmk]
    rw [show (Dec.ofInt (z.natAbs : ℤ)).neg = Dec.ofInt (-((z.natAbs : ℕ) : ℤ)) from rfl]
    rw [hznabs]
  · have hdata : (intDecRepr z).data = c :: cs := by
      rw [← hl]
      simp [intDecRepr, hz, natDecRepr]
    have hznabs : ((z.natAbs : ℕ) : ℤ) = z := Int.natAbs_of_nonneg (by omega)
    simp only [strToNumber, hdata, trimList_eq_self _ (hl ▸ hws)]
    rw [show ((c :: cs).isEmpty) = false from rfl]
    simp only [Bool.false_eq_true, if_false]
    rw [parseNonDecInt_digits (c :: cs) hdigl]
    simp only [hplus, hminus, Bool.false_eq_true, if_false]
    rw [if_neg hnotInf]
    rw [parseUnsignedDec_digits (c :: cs) (by simp) hdigl]
    simp only [if_false, hmk]
    rw [hznabs]

/-- The canonical decimal text of an integer is trim-stable, non-empty
and never the word `null`. -/
theorem intDecRepr_props (z : ℤ) :
    jsTrim (intDecRepr z) = intDecRepr z ∧ intDecRepr z ≠ "" ∧
    jsToLower (intDecRepr z) ≠ "null" := by
  obtain ⟨hne, hdig, _⟩ := natDecDigits_ok z.natAbs
  obtain ⟨c, cs, hl⟩ : ∃ c cs, natDecDigits z.natAbs = c :: cs := by
    cases h : natDecDigits z.natAbs with
    | nil => exact absurd h hne
    | cons c cs => exact ⟨c, cs, rfl⟩
  obtain ⟨d, hd, hcd⟩ := hdig c (by rw [hl]; exact List.mem_cons_self c cs)
  have hws : ∀ x ∈ natDecDigits z.natAbs, isJsWs x = false := by
    intro x hx
    obtain ⟨e, he, rfl⟩ := hdig x hx
    exact (digitChar_facts e he).2.2.1
  have hnull : ("null".data) = ['n', 'u', 'l', 'l'] := rfl
  by_cases hz : z < 0
  · have hdata : (intDecRepr z).data = '-' :: (c :: cs) := by
      rw [← hl]
      simp [intDecRepr, hz, natDecRepr]
    have hws2 : ∀ x ∈ '-' :: (c :: cs), isJsWs x = false := by
      intro x hx
      rcases List.mem_cons.mp hx with rfl | hx
      · rfl
      · exact hws x (hl ▸ hx)
    refine ⟨?_, ?_, ?_⟩
    · show (⟨trimList (intDecRepr z).data⟩ : String) = intDecRepr z
      rw [hdata, trimList_eq_self _ hws2, ← hdata]
    · intro h
      have := congrArg String.data h
      rw [hdata] at this
      exact List.noConfusion this
    · intro h
      have := congrArg String.data h
      rw [show (jsToLower (intDecRepr z)).data = (intDecRepr z).data.map Char.toLower from rfl,
        hdata, hnull] at this
      simp only [List.map_cons, List.cons.injEq] at this
      exact absurd this.1 (by decide)
  · have hdata : (intDecRepr z).data = c :: cs := by
      rw [← hl]
      simp [intDecRepr, hz, natDecRepr]
    refine ⟨?_, ?_, ?_⟩
    · show (⟨trimList (intDecRepr z).data⟩ : String) = intDecRepr z
      rw [hdata, trimList_eq_self _ (hl ▸ hws), ← hdata]
    · intro h
      have := congrArg String.data h
      rw [hdata] at this
      exact List.noConfusion this
    · intro h
      have := congrArg String.data h
      rw [show (jsToLower (intDecRepr z)).data = (intDecRepr z).data.map Char.toLower from rfl,
        hdata, hnull] at this
      simp only [List.map_cons, List.cons.injEq] at this
      have hlow : (digitChar d).toLower = digitChar d := (digitChar_facts d hd).2.2.2.1
      have hn : digitChar d ≠ 'n' := (digitChar_facts d hd).2.2.2.2.1
      rw [hcd, hlow] at this
      exact hn this.1

/-- With positive chunk size the batch loop makes at most one iteration
per row. -/
theorem chunkAux_length_le {α : Type} (b : Nat) (hb : 1 ≤ b) :
    ∀ (f : Nat) (l : List α), l.length ≤ f → (chunkAux b f l).length ≤ l.length := by
  intro f
  induction f with
  | zero => intro l h; simp [chunkAux]
  | succ f ih =>
    intro l h
    cases l with
    | nil => simp [chunkAux]
    | cons c cs =>
      simp only [chunkAux, List.length_cons]
      have hlen : ((c :: cs).drop b).length = cs.length + 1 - b := by
        simp [List.length_drop]
      have hrec := ih ((c :: cs).drop b) (by rw [hlen]; simp at h; omega)
      rw [hlen] at hrec
      omega

/-- `remAllQuotes` output contains no quote character. -/
theorem remAllQuotes_no_quotes (s : String) :
    ∀ c ∈ (remAllQuotes s).data, isQuoteChar c = false := by
  intro c hc
  simp only [remAllQuotes] at hc
  rw [List.mem_filter] at hc
  simpa using hc.2

/-- `objSet` only introduces keys satisfying a property already held by
the row's keys and the inserted key. -/
theorem objSet_keys (Q : String → Prop) (r : Row) (k : String) (v : Value)
    (hr : ∀ kv ∈ r, Q kv.1) (hk : Q k) :
    ∀ kv ∈ objSet r k v, Q kv.1 := by
  intro kv hkv
  unfold objSet at hkv
  by_cases hany : r.any (fun p => p.1 == k) = true
  · rw [if_pos hany] at hkv
    obtain ⟨p, hp, hpe⟩ := List.mem_map.mp hkv
    by_cases hpk : (p.1 == k) = true
    · rw [if_pos hpk] at hpe
      rw [← hpe]
      exact hk
    · rw [if_neg hpk] at hpe
      rw [← hpe]
      exact hr p hp
  · rw [if_neg hany] at hkv
    rcases List.mem_append.mp hkv with h | h
    · exact hr kv h
    · rw [List.mem_singleton] at h
      rw [h]
      exact hk

/-- Folding `objSet` over key/value pairs preserves a key property. -/
theorem foldl_objSet_keys (Q : String → Prop) :
    ∀ (pairs : List (String × Value)) (r : Row),
      (∀ kv ∈ r, Q kv.1) → (∀ p ∈ pairs, Q p.1) →
      ∀ kv ∈ pairs.foldl (fun acc kv => objSet acc kv.1 kv.2) r, Q kv.1 := by
  intro pairs
  induction pairs with
  | nil => intro r hr _ kv hkv; exact hr kv hkv
  | cons p ps ih =>
    intro r hr hp kv hkv
    rw [List.foldl_cons] at hkv
    exact ih (objSet r p.1 p.2)
      (objSet_keys Q r p.1 p.2 hr (hp p (List.mem_cons_self p ps)))
      (fun q hq => hp q (List.mem_cons_of_mem p hq)) kv hkv

/-- Every key of a built row comes from the header list. -/
theorem rowFromHeaders_keys (Q : String → Prop) (headers : List String)
    (values : List Value) (hh : ∀ s ∈ headers, Q s) :
    ∀ kv ∈ rowFromHeaders headers values, Q kv.1 := by
  apply foldl_objSet_keys Q (headers.zip values) []
  · intro kv hkv; exact absurd hkv (List.not_mem_nil kv)
  · intro p hp
    exact hh p.1 (List.of_mem_zip hp).1

/-- The data-line fold of `parseCSV` only produces rows whose keys are
quote-free, given quote-free headers. -/
theorem parseCSV_foldl_inv (headers : List String)
    (hh : ∀ s ∈ headers, ∀ c ∈ s.data, isQuoteChar c = false) :
    ∀ (lines : List (List Char)) (acc : List Row),
      (∀ r ∈ acc, ∀ kv ∈ r, ∀ c ∈ kv.1.data, isQuoteChar c = false) →
      ∀ r ∈ lines.foldl
        (fun acc lineCs =>
          let line := jsTrim ⟨lineCs⟩
          if line = "" then acc
          else
            let values := (parseCsvLine line).map coerceCSVToken
            if values.length = headers.length
            then acc ++ [rowFromHeaders headers values]
            else acc) acc,
      ∀ kv ∈ r, ∀ c ∈ kv.1.data, isQuoteChar c = false := by
  intro lines
  induction lines with
  | nil => intro acc hacc r hr; exact hacc r hr
  | cons L Ls ih =>
    intro acc hacc
    rw [List.foldl_cons]
    apply ih
    intro r hr
    dsimp only at hr
    split_ifs at hr with h1 h2
    · exact hacc r hr
    · rcases List.mem_append.mp hr with h | h
      · exact hacc r h
      · rw [List.mem_singleton] at h
        rw [h]
        intro kv hkv
        exact rowFromHeaders_keys _ headers _ hh kv hkv
    · exact hacc r hr

/-- A safe placeholder substitutes without error. -/
theorem substPlaceholder_safe (s ph r : String)
    (h : regexSafePlaceholder ph = true) :
    substPlaceholder s ph r = .ok (replaceAllStr s ph r) := by
  simp [substPlaceholder, h]

/-- A fold whose step never errors never errors. -/
theorem foldlME_ok {σ α : Type} (f : σ → α → Except String σ) :
    ∀ (l : List α), (∀ s x, x ∈ l → ∃ s2, f s x = .ok s2) →
      ∀ init, ∃ out, foldlME f init l = .ok out := by
  intro l
  induction l with
  | nil => intro _ init; exact ⟨init, rfl⟩
  | cons x xs ih =>
    intro h init
    obtain ⟨s2, hs2⟩ := h init x (List.mem_cons_self x xs)
    obtain ⟨out, hout⟩ := ih (fun s y hy => h s y (List.mem_cons_of_mem x hy)) s2
    exact ⟨out, by simp only [foldlME, hs2, hout]⟩

/-- A map whose elements never error never errors. -/
theorem mapME_ok {α β : Type} (f : α → Except String β) :
    ∀ (l : List α), (∀ x ∈ l, ∃ y, f x = .ok y) →
      ∃ ys, mapME f l = .ok ys := by
  intro l
  induction l with
  | nil => exact fun _ => ⟨[], rfl⟩
  | cons x xs ih =>
    intro h
    obtain ⟨y, hy⟩ := h x (List.mem_cons_self x xs)
    obtain ⟨ys, hys⟩ := ih (fun z hz => h z (List.mem_cons_of_mem x hz))
    exact ⟨y :: ys, by simp only [mapME, hy, hys]⟩

/-- With safe placeholders, row substitution succeeds on every row. -/
theorem processCore_ok (rt : String)
    (hsafe : ∀ ph ∈ findPlaceholders rt, regexSafePlaceholder ph = true)
    (r : Row) : ∃ s, processCore rt r = .ok s := by
  apply foldlME_ok
  intro s ph hph
  exact ⟨_, substPlaceholder_safe s ph _ (hsafe ph hph)⟩

/-- With safe placeholders, the parenthesised row string succeeds. -/
theorem processRowAll_ok (rt : String)
    (hsafe : ∀ ph ∈ findPlaceholders rt, regexSafePlaceholder ph = true)
    (r : Row) : ∃ s, processRowAll rt r = .ok s := by
  obtain ⟨s, hs⟩ := processCore_ok rt hsafe r
  exact ⟨"(" ++ s ++ ")", by simp only [processRowAll, hs]⟩

/-- With safe placeholders, row classification succeeds. -/
theorem processRowClassify_ok (rt : String)
    (hsafe : ∀ ph ∈ findPlaceholders rt, regexSafePlaceholder ph = true)
    (r : Row) : ∃ p, processRowClassify rt r = .ok p := by
  obtain ⟨out, hout⟩ := foldlME_ok
      (fun (acc : String × Bool) ph =>
        let key := stripBraces ph
        let rv : String × Bool :=
          match jsLookup r key with
          | none => ("NULL", true)
          | some .vNull => ("NULL", true)
          | some (.vStr s) => ("'" ++ replaceAllStr s "'" "''" ++ "'", false)
          | some v => (jsStringOf v, false)
        match substPlaceholder acc.1 ph rv.1 with
        | .ok s2 => Except.ok (s2, acc.2 || rv.2)
        | .error e => Except.error e)
      (findPlaceholders rt)
      (fun s ph hph => by
        simp only [substPlaceholder_safe _ _ _ (hsafe ph hph)]
        exact ⟨_, rfl⟩)
      (rt, false)
  exact ⟨("(" ++ out.1 ++ ")", out.2), by simp only [processRowClassify, hout]⟩

/-- With safe placeholders, the batch-tab loop succeeds. -/
theorem buildBatches_ok (rt pre : String) (b : Nat)
    (hsafe : ∀ ph ∈ findPlaceholders rt, regexSafePlaceholder ph = true) :
    ∀ (f k : Nat) (l : List Row), ∃ tabs, buildBatches rt pre b f k l = .ok tabs := by
  intro f
  induction f with
  | zero => intro k l; exact ⟨[], rfl⟩
  | succ f ih =>
    intro k l
    cases l with
    | nil => exact ⟨[], rfl⟩
    | cons c cs =>
      obtain ⟨strs, hstrs⟩ :=
        mapME_ok (processRowAll rt) ((c :: cs).take b)
          (fun r _ => processRowAll_ok rt hsafe r)
      obtain ⟨rest, hrest⟩ := ih (k + 1) ((c :: cs).drop b)
      have heq : buildBatches rt pre b (f + 1) k (c :: cs) =
          .ok ((if joinWith ",\n" strs ≠ "" then
                 [(⟨"batch-" ++ natDecRepr k, "Batch " ++ natDecRepr k,
                   pre ++ joinWith ",\n" strs, ((c :: cs).take b).length,
                   .batch⟩ : SqlTab)]
               else []) ++ rest) := by
        simp only [buildBatches, hstrs, hrest]
      exact ⟨_, heq⟩

/-- A successful `mapME` preserves length. -/
theorem mapME_ok_length {α β : Type} (f : α → Except String β) :
    ∀ (l : List α) (ys : List β), mapME f l = .ok ys → ys.length = l.length := by
  intro l
  induction l with
  | nil => intro ys h; simp only [mapME] at h; rw [← Except.ok.inj h]; rfl
  | cons x xs ih =>
    intro ys h
    simp only [mapME] at h
    cases hx : f x with
    | error e => rw [hx] at h; exact absurd h (by simp)
    | ok y =>
      cases hxs : mapME f xs with
      | error e => rw [hx, hxs] at h; exact absurd h (by simp)
      | ok ys2 =>
        rw [hx, hxs] at h
        rw [← Except.ok.inj h]
        simp [ih ys2 hxs]

/-- Every output of a successful `mapME` comes from an input. -/
theorem mapME_ok_mem {α β : Type} (f : α → Except String β) :
    ∀ (l : List α) (ys : List β), mapME f l = .ok ys →
      ∀ y ∈ ys, ∃ x ∈ l, f x = .ok y := by
  intro l
  induction l with
  | nil =>
    intro ys h y hy
    simp only [mapME] at h
    rw [← Except.ok.inj h] at hy
    exact absurd hy (List.not_mem_nil y)
  | cons x xs ih =>
    intro ys h y hy
    simp only [mapME] at h
    cases hx : f x with
    | error e => rw [hx] at h; exact absurd h (by simp)
    | ok y1 =>
      cases hxs : mapME f xs with
      | error e => rw [hx, hxs] at h; exact absurd h (by simp)
      | ok ys2 =>
        rw [hx, hxs] at h
        rw [← Except.ok.inj h] at hy
        rcases List.mem_cons.mp hy with rfl | hy2
        · exact ⟨x, List.mem_cons_self x xs, hx⟩
        · obtain ⟨x2, hx2, hfx2⟩ := ih ys2 hxs y hy2
          exact ⟨x2, List.mem_cons_of_mem x hx2, hfx2⟩

/-- String concatenation acts as list concatenation on the data. -/
theorem string_data_append (a c : String) : (a ++ c).data = a.data ++ c.data := rfl

/-- A successful row string is parenthesised, hence non-empty. -/
theorem processRowAll_shape (rt : String) (r : Row) (s : String)
    (h : processRowAll rt r = .ok s) : ∃ core, s = "(" ++ core ++ ")" := by
  unfold processRowAll at h
  cases hc : processCore rt r with
  | ok c => rw [hc] at h; exact ⟨c, (Except.ok.inj h).symm⟩
  | error e => rw [hc] at h; exact absurd h (by simp)

/-- Joining a non-empty list of parenthesised row strings is
non-empty. -/
theorem joinWith_parens_ne_empty (sep : String) (x : String) (xs : List String)
    (hx : ∃ core, x = "(" ++ core ++ ")") : joinWith sep (x :: xs) ≠ "" := by
  obtain ⟨core, rfl⟩ := hx
  intro h
  have hd := congrArg String.data h
  cases xs with
  | nil =>
    rw [show joinWith sep [("(" ++ core ++ ")")] = "(" ++ core ++ ")" from rfl] at hd
    rw [show ("(" ++ core ++ ")").data = '(' :: core.data ++ [')'] from rfl] at hd
    exact List.noConfusion hd
  | cons y ys =>
    rw [show joinWith sep (("(" ++ core ++ ")") :: y :: ys) =
      ("(" ++ core ++ ")") ++ sep ++ joinWith sep (y :: ys) from rfl] at hd
    rw [string_data_append, string_data_append] at hd
    rw [show ("(" ++ core ++ ")").data = '(' :: core.data ++ [')'] from rfl] at hd
    exact List.noConfusion hd

/-- `chunkAux` of the empty list is empty for any fuel. -/
theorem chunkAux_nil {α : Type} (b : Nat) : ∀ f : Nat, chunkAux b f ([] : List α) = [] := by
  intro f
  cases f <;> rfl

/-- The batch chunks concatenate back to the original list. -/
theorem chunkAux_join {α : Type} (b : Nat) (hb : 1 ≤ b) :
    ∀ (f : Nat) (l : List α), l.length ≤ f → (chunkAux b f l).flatten = l := by
  intro f
  induction f with
  | zero =>
    intro l h
    have : l = [] := List.length_eq_zero.mp (by omega)
    rw [this]
    rfl
  | succ f ih =>
    intro l h
    cases l with
    | nil => rfl
    | cons c cs =>
      simp only [chunkAux, List.flatten_cons]
      rw [ih ((c :: cs).drop b) (by simp [List.length_drop] at h ⊢; omega)]
      exact List.take_append_drop b (c :: cs)

/-- Every batch chunk is non-empty and no longer than the batch size. -/
theorem chunkAux_mem {α : Type} (b : Nat) (hb : 1 ≤ b) :
    ∀ (f : Nat) (l : List α), ∀ c ∈ chunkAux b f l, c ≠ [] ∧ c.length ≤ b := by
  intro f
  induction f with
  | zero => intro l c hc; exact absurd hc (by simp [chunkAux])
  | succ f ih =>
    intro l c hc
    cases l with
    | nil => exact absurd hc (by simp [chunkAux])
    | cons x xs =>
      simp only [chunkAux] at hc
      rcases List.mem_cons.mp hc with rfl | hc2
      · constructor
        · obtain ⟨b2, rfl⟩ : ∃ b2, b = b2 + 1 := ⟨b - 1, by omega⟩
          simp [List.take]
        · simp [List.length_take]
      · exact ih ((x :: xs).drop b) c hc2

/-- Every batch chunk except possibly the last has length exactly the
batch size. -/
theorem chunkAux_dropLast {α : Type} (b : Nat) (_hb : 1 ≤ b) :
    ∀ (f : Nat) (l : List α),
      ((chunkAux b f l).dropLast).all (fun c => c.length == b) = true := by
  intro f
  induction f with
  | zero => intro l; rfl
  | succ f ih =>
    intro l
    cases l with
    | nil => rfl
    | cons x xs =>
      simp only [chunkAux]
      by_cases hR : chunkAux b f ((x :: xs).drop b) = []
      · rw [hR]
        rfl
      · rw [List.dropLast_cons_of_ne_nil hR, List.all_cons]
        have hlong : b < (x :: xs).length := by
          by_contra hle
          apply hR
          rw [List.drop_eq_nil_of_le (by omega)]
          exact chunkAux_nil b f
        have htk : ((x :: xs).take b).length = b := by
          rw [List.length_take]
          omega
        rw [ih ((x :: xs).drop b)]
        simp [htk]

/-- What the batch-tab loop produces on success: one tab per chunk, in
order, with 1-based ids starting at `k` and row counts equal to the
chunk lengths. -/
theorem buildBatches_spec (rt pre : String) (b : Nat) (hb : 1 ≤ b) :
    ∀ (f : Nat) (l : List Row) (k : Nat) (tabs : List SqlTab),
      buildBatches rt pre b f k l = .ok tabs →
      tabs.map (fun t => t.rowCount) = (chunkAux b f l).map List.length ∧
      tabs.map (fun t => t.id) =
        (List.range (chunkAux b f l).length).map
          (fun j => "batch-" ++ natDecRepr (k + j)) ∧
      ∀ t ∈ tabs, t.type = TabType.batch := by
  intro f
  induction f with
  | zero =>
    intro l k tabs h
    rw [← Except.ok.inj h]
    exact ⟨rfl, rfl, fun t ht => absurd ht (List.not_mem_nil t)⟩
  | succ f ih =>
    intro l k tabs h
    cases l with
    | nil =>
      rw [← Except.ok.inj h]
      exact ⟨rfl, rfl, fun t ht => absurd ht (List.not_mem_nil t)⟩
    | cons c cs =>
      simp only [buildBatches] at h
      cases hm : mapME (processRowAll rt) ((c :: cs).take b) with
      | error e => simp [hm] at h
      | ok strs =>
        cases hbb : buildBatches rt pre b f (k + 1) ((c :: cs).drop b) with
        | error e => simp [hm, hbb] at h
        | ok rest =>
          simp only [hm, hbb] at h
          have hstrs_ne : strs ≠ [] := by
            intro hnil
            have := mapME_ok_length (processRowAll rt) _ _ hm
            rw [hnil] at this
            simp only [List.length_nil, List.length_take, List.length_cons] at this
            omega
          obtain ⟨s1, srest, rfl⟩ : ∃ s1 srest, strs = s1 :: srest := by
            cases strs with
            | nil => exact absurd rfl hstrs_ne
            | cons s1 srest => exact ⟨s1, srest, rfl⟩
          have hs1 : ∃ core, s1 = "(" ++ core ++ ")" := by
            obtain ⟨x, _, hfx⟩ :=
              mapME_ok_mem (processRowAll rt) _ _ hm s1 (List.mem_cons_self s1 srest)
            exact processRowAll_shape rt x s1 hfx
          have hjoin : joinWith ",\n" (s1 :: srest) ≠ "" :=
            joinWith_parens_ne_empty ",\n" s1 srest hs1
          rw [if_pos hjoin] at h
          rw [← Except.ok.inj h]
          obtain ⟨ihc, ihi, iht⟩ := ih ((c :: cs).drop b) (k + 1) rest hbb
          refine ⟨?_, ?_, ?_⟩
          · simp only [chunkAux, List.singleton_append, List.map_cons, ihc]
          · simp only [chunkAux, List.singleton_append, List.map_cons, List.length_cons,
              List.range_succ_eq_map, List.map_map, ihi, Nat.add_zero, List.cons.injEq,
              true_and]
            apply List.map_congr_left
            intro j _
            simp only [Function.comp_apply]
            rw [show k + 1 + j = k + (j + 1) from by omega]
          · intro t ht
            rcases List.mem_append.mp ht with h1 | h2
            · rw [List.mem_singleton] at h1
              rw [h1]
            · exact iht t h2

/-! # Claim theorems -/

/-- C1 counterexample: on the spec scenario's RowSet and template the
`ALL` variant renders row 2 as `(2,null)` — the lowercase text produced
by JavaScript `String(null)`, since the `ALL` loop converts only
`undefined` to `NULL` — so the claimed row string `(2,NULL)` does not
occur in the `ALL` script. -/
theorem c1_counterexample :
    generateSqlTabs rows0 1000 tpl0 = .ok [tabAll0, tabWN0, tabWNull0] ∧
    jsIncludes tabAll0.script "(2,NULL)" = false ∧
    jsIncludes tabAll0.script "(2,null)" = true := by
  refine ⟨by decide, by decide, by decide⟩

/-- C1 (corrected): for the RowSet
`[{"id":1,"name":"A"},{"id":2,"name":null}]`, the template
`INSERT INTO t (id,name) VALUES ({id},{name});` and batch size 1000, the
`ALL` variant contains exactly the row strings `(1,'A')` and `(2,null)`
(a null field renders as the lowercase text `null` in `ALL`, while the
`WITH-NULL` variant renders it as `NULL`), `WITHOUT-NULL` has row count
1, `WITH-NULL` has row count 1, and no batch variant is produced. -/
theorem c1_amended :
    generateSqlTabs rows0 1000 tpl0 = .ok [tabAll0, tabWN0, tabWNull0] ∧
    tabAll0.script = pre0 ++ "(1,'A'),\n(2,null)" ∧
    tabAll0.rowCount = 2 ∧ tabWN0.rowCount = 1 ∧ tabWNull0.rowCount = 1 ∧
    [tabAll0, tabWN0, tabWNull0].filter (fun t => t.type == TabType.batch) = [] := by
  refine ⟨by decide, by decide, by decide, by decide, by decide, by decide⟩

/-- C4 counterexample: a JSON object whose array-valued field is named
`items` rather than `collectPoints` is not unwrapped — the parser keeps
the envelope object, which then fails RowSet validation — refuting the
claim that the unwrap applies to every array-valued field name. -/
theorem c4_counterexample :
    unwrapCollectPoints (.jobj envItems) = .ok (.jobj envItems) ∧
    validateJson (.jobj envItems) = ["JSON must be an array of objects"] := by
  exact ⟨rfl, rfl⟩

/-- C4 (corrected): when a file parsed in the JSON branch yields an
object, the unwrap applies only to the specific field named
`collectPoints`: whenever that field holds an array, the parser unwraps
to it. -/
theorem c4_amended (fields : List (String × JSValue)) (elems : List JSValue)
    (h : (fields.find? (fun p => p.1 == "collectPoints")).map Prod.snd =
      some (.jarr elems)) :
    unwrapCollectPoints (.jobj fields) = .ok (.jarr elems) := by
  simp only [unwrapCollectPoints, jsProp]
  rw [h]
  simp [jsTruthy, jsIsArray]

/-- C4 witness: the amended claim at a concrete envelope object. -/
theorem c4_witness :
    unwrapCollectPoints
        (.jobj [("collectPoints", .jarr [.jobj [("id", .jnum (Dec.ofInt 1))]])]) =
      .ok (.jarr [.jobj [("id", .jnum (Dec.ofInt 1))]]) :=
  c4_amended [("collectPoints", .jarr [.jobj [("id", .jnum (Dec.ofInt 1))]])]
    [.jobj [("id", .jnum (Dec.ofInt 1))]] rfl

/-- C7 counterexample: with batch size 0 and the two-row RowSet the
batch loop `for (let i = 0; i < len; i += batchSize)` never terminates —
no iterate `k * 0` ever reaches the row count — so expansion does not
terminate for every integer batch size; the embedded generator reports
this case as an error. -/
theorem c7_counterexample :
    ¬ batchLoopTerminates 0 rows0.length ∧
    generateSqlTabs rows0 0 tpl0 =
      .error "batch loop does not terminate for batchSize <= 0" := by
  constructor
  · rintro ⟨k, hk⟩
    rw [mul_zero] at hk
    have : (rows0.length : ℤ) = 2 := by decide
    rw [this] at hk
    exact absurd hk (by norm_num)
  · decide

/-- C7 (corrected): for every batch size `b ≥ 1` the batch loop
terminates, and the number of loop iterations (batch chunks) is at most
the row count, so expansion completes in time bounded by a function of
row count and template size; for `b ≤ 0` with more rows than `b` the
loop diverges. -/
theorem c7_amended (b : ℤ) (rows : List Row) (hb : 1 ≤ b) :
    batchLoopTerminates b rows.length ∧
    (batchChunks b.toNat rows).length ≤ rows.length := by
  constructor
  · refine ⟨rows.length, ?_⟩
    calc (rows.length : ℤ) = (rows.length : ℤ) * 1 := by ring
    _ ≤ (rows.length : ℤ) * b := by
        exact mul_le_mul_of_nonneg_left hb (Int.ofNat_nonneg rows.length)
  · exact chunkAux_length_le b.toNat (by omega) rows.length rows (le_refl _)

/-- C7 witness: the amended claim at batch size 3 and the concrete
RowSet. -/
theorem c7_witness :
    batchLoopTerminates 3 rows0.length ∧
    (batchChunks (3 : ℤ).toNat rows0).length ≤ rows0.length :=
  c7_amended 3 rows0 (by norm_num)

/-- C3 counterexample: feeding unparseable text to `processManualData`
while a valid RowSet is loaded clears the RowSet (`setJsonData(null)`,
lines 336 and 344) instead of leaving it untouched; only the previously
generated variants survive. -/
theorem c3_counterexample :
    (processManualData (fun _ => .error "Unexpected token") "not json" stateEx).jsonData
      = none ∧
    stateEx.jsonData ≠ none ∧
    (processManualData (fun _ => .error "Unexpected token") "not json" stateEx).sqlTabs
      = stateEx.sqlTabs := by
  refine ⟨rfl, by simp [stateEx], rfl⟩

/-- C3 (corrected): for every parser, input text and prior state with
non-blank input, `processManualData` behaves as follows — on a parse
error it reports the error list, leaves the previously generated script
variants and active tab unchanged, but clears the previously loaded
RowSet to `null`; on a validation failure it likewise reports the
errors, keeps the variants and clears the RowSet; only a successful
fresh parse replaces the prior RowSet and clears the prior output. -/
theorem c3_amended (parse : String → Except String JSValue) (text : String)
    (s : EngineState) (hne : jsTrim text ≠ "") :
    ((∀ e, parse text = .error e →
        (processManualData parse text s).errors = ["Invalid data format: " ++ e] ∧
        (processManualData parse text s).jsonData = none ∧
        (processManualData parse text s).sqlTabs = s.sqlTabs ∧
        (processManualData parse text s).activeTab = s.activeTab) ∧
     (∀ v, parse text = .ok v → validateJson v ≠ [] →
        (processManualData parse text s).errors = validateJson v ∧
        (processManualData parse text s).jsonData = none ∧
        (processManualData parse text s).sqlTabs = s.sqlTabs) ∧
     (∀ v, parse text = .ok v → validateJson v = [] →
        (processManualData parse text s).jsonData = some v ∧
        (processManualData parse text s).sqlTabs = [] ∧
        (processManualData parse text s).errors = [])) := by
  refine ⟨?_, ?_, ?_⟩
  · intro e he
    simp [processManualData, hne, he]
  · intro v hv hval
    simp [processManualData, hne, hv, hval]
  · intro v hv hval
    simp [processManualData, hne, hv, hval]

/-- C9 counterexample: CSV header `a'b` loses its **interior** single
quote — `header.replace(/["']/g, "")` removes every quote, so the field
name is `ab`, not `a'b` as the claim requires. -/
theorem c9_counterexample :
    parseCSV "a'b,c\n1,2" =
      .ok [[("ab", Value.vNum (JSNumber.finite (Dec.ofInt 1))),
            ("c", Value.vNum (JSNumber.finite (Dec.ofInt 2)))]] ∧
    "a'b" ≠ "ab" := by
  exact ⟨by decide, by decide⟩

/-- C9 (corrected): for every CSV input that parses, every field name of
every row contains no straight or single quote at all — the header
replacement `/["']/g` is global, removing interior quotes as well (and
straight quotes are already consumed by the quote-toggling line
splitter), rather than stripping only leading and trailing ones. -/
theorem c9_amended (text : String) (data : List Row)
    (h : parseCSV text = .ok data) :
    ∀ r ∈ data, ∀ kv ∈ r, ∀ c ∈ kv.1.data, isQuoteChar c = false := by
  unfold parseCSV at h
  rcases hsp : splitChar '\n' (trimList text.data) with _ | ⟨l0, _ | ⟨l1, rest⟩⟩
  · rw [hsp] at h
    exact absurd h (by simp)
  · rw [hsp] at h
    exact absurd h (by simp)
  · rw [hsp] at h
    have hdata := Except.ok.inj h
    rw [← hdata]
    apply parseCSV_foldl_inv ((parseCsvLine ⟨l0⟩).map remAllQuotes) ?_ (l1 :: rest) [] ?_
    · intro s hs
      obtain ⟨x, _, hxe⟩ := List.mem_map.mp hs
      rw [← hxe]
      exact remAllQuotes_no_quotes x
    · intro r hr
      exact absurd hr (List.not_mem_nil r)

/-- C9 witness: the amended claim applied to the concrete CSV input,
its parsed rows, the first key `ab` and its first character. -/
theorem c9_witness : isQuoteChar 'a' = false :=
  c9_amended "a'b,c\n1,2"
    [[("ab", Value.vNum (JSNumber.finite (Dec.ofInt 1))),
      ("c", Value.vNum (JSNumber.finite (Dec.ofInt 2)))]]
    (by decide)
    [("ab", Value.vNum (JSNumber.finite (Dec.ofInt 1))),
     ("c", Value.vNum (JSNumber.finite (Dec.ofInt 2)))]
    (by decide)
    ("ab", Value.vNum (JSNumber.finite (Dec.ofInt 1)))
    (by decide) 'a' (by decide)

/-- C8 (confirmed): in per-row mode with VALUES clause found and
`1 ≤ batchSize`, the batch chunks partition the full row sequence into
consecutive chunks in original order — their concatenation is the row
list, every chunk is non-empty with length ≤ batchSize, and all chunks
except possibly the last have length exactly batchSize — and the
produced batch variants correspond one-to-one, in chunk order, to the
chunks: their row counts are the chunk lengths and their ids are
`batch-1`, `batch-2`, …; when `batchSize ≥ row count` no batch variant
is produced. -/
theorem c8_confirmed (rows : List Row) (tpl : String) (idx : Nat) (rt : String)
    (b : ℤ) (tabs : List SqlTab)
    (hb : 1 ≤ b)
    (hinc : jsIncludes (jsToLower tpl) "values" = true)
    (hfv : findValuesClause tpl = some (idx, rt))
    (hok : generateSqlTabs rows b tpl = .ok tabs) :
    ((batchChunks b.toNat rows).flatten = rows ∧
     (∀ c ∈ batchChunks b.toNat rows, c ≠ [] ∧ c.length ≤ b.toNat) ∧
     ((batchChunks b.toNat rows).dropLast).all (fun c => c.length == b.toNat) = true) ∧
    (b < (rows.length : ℤ) →
      (tabs.filter (fun t => t.type == TabType.batch)).map (fun t => t.rowCount) =
        (batchChunks b.toNat rows).map List.length ∧
      (tabs.filter (fun t => t.type == TabType.batch)).map (fun t => t.id) =
        (List.range (batchChunks b.toNat rows).length).map
          (fun j => "batch-" ++ natDecRepr (1 + j))) ∧
    ((rows.length : ℤ) ≤ b →
      tabs.filter (fun t => t.type == TabType.batch) = []) := by
  have hbn : 1 ≤ b.toNat := by omega
  have hkey : (b < (rows.length : ℤ) ∧ ∃ batchTabs,
      buildBatches rt
        (if jsIncludes (jsToLower tpl) "insert into"
         then takeChars tpl idx ++ "VALUES\n" else "VALUES\n")
        b.toNat rows.length 1 rows = .ok batchTabs ∧
      tabs.filter (fun t => t.type == TabType.batch) = batchTabs) ∨
    (¬ b < (rows.length : ℤ) ∧
      tabs.filter (fun t => t.type == TabType.batch) = []) := by
    simp only [generateSqlTabs, hinc, if_true, hfv] at hok
    by_cases hrt : rt = ""
    · rw [if_pos hrt] at hok
      exact absurd hok (by simp)
    rw [if_neg hrt] at hok
    cases ha : mapME (processRowAll rt) rows with
    | error e => simp [ha] at hok
    | ok allStrs =>
      cases hc : mapME (processRowClassify rt) rows with
      | error e => simp [ha, hc] at hok
      | ok cls =>
        simp only [ha, hc] at hok
        by_cases hlen : b < (rows.length : ℤ)
        · rw [if_pos hlen, if_pos hb] at hok
          cases hbb : buildBatches rt
              (if jsIncludes (jsToLower tpl) "insert into"
               then takeChars tpl idx ++ "VALUES\n" else "VALUES\n")
              b.toNat rows.length 1 rows with
          | error e => simp [hbb] at hok
          | ok batchTabs =>
            simp only [hbb] at hok
            obtain ⟨_, _, htype⟩ :=
              buildBatches_spec rt _ b.toNat hbn rows.length rows 1 batchTabs hbb
            have hfil : tabs.filter (fun t => t.type == TabType.batch) = batchTabs := by
              rw [← Except.ok.inj hok]
              simp only [List.filter_append]
              rw [show List.filter (fun t => t.type == TabType.batch) batchTabs = batchTabs
                from List.filter_eq_self.mpr (fun t ht => by rw [htype t ht]; rfl)]
              split_ifs <;>
                simp [List.filter,
                  show (TabType.all == TabType.batch) = false from rfl,
                  show (TabType.withoutNull == TabType.batch) = false from rfl,
                  show (TabType.withNull == TabType.batch) = false from rfl]
            exact Or.inl ⟨hlen, batchTabs, rfl, hfil⟩
        · rw [if_neg hlen] at hok
          refine Or.inr ⟨hlen, ?_⟩
          rw [← Except.ok.inj hok]
          simp only [List.filter_append]
          split_ifs <;>
            simp [List.filter,
              show (TabType.all == TabType.batch) = false from rfl,
              show (TabType.withoutNull == TabType.batch) = false from rfl,
              show (TabType.withNull == TabType.batch) = false from rfl]
  refine ⟨⟨chunkAux_join b.toNat hbn rows.length rows (le_refl _),
          fun c hc => chunkAux_mem b.toNat hbn rows.length rows c hc,
          chunkAux_dropLast b.toNat hbn rows.length rows⟩, ?_, ?_⟩
  · intro hlen
    rcases hkey with ⟨_, batchTabs, hbb, hfilter⟩ | ⟨hnl, _⟩
    · obtain ⟨hcount, hid, _⟩ :=
        buildBatches_spec rt _ b.toNat hbn rows.length rows 1 batchTabs hbb
      rw [hfilter]
      exact ⟨hcount, hid⟩
    · exact absurd hlen hnl
  · intro hge
    rcases hkey with ⟨hlt, _⟩ | ⟨_, hfilter⟩
    · omega
    · exact hfilter

/-- C8 witness: the confirmed claim at the concrete RowSet, template and
batch size 1, where the generator produces tabs `Batch 1` and
`Batch 2`. -/
theorem c8_witness :
    ((batchChunks (1 : ℤ).toNat rows0).flatten = rows0 ∧
     (∀ c ∈ batchChunks (1 : ℤ).toNat rows0, c ≠ [] ∧ c.length ≤ (1 : ℤ).toNat) ∧
     ((batchChunks (1 : ℤ).toNat rows0).dropLast).all
       (fun c => c.length == (1 : ℤ).toNat) = true) ∧
    ((1 : ℤ) < (rows0.length : ℤ) →
      (tabsBatch0.filter (fun t => t.type == TabType.batch)).map (fun t => t.rowCount) =
        (batchChunks (1 : ℤ).toNat rows0).map List.length ∧
      (tabsBatch0.filter (fun t => t.type == TabType.batch)).map (fun t => t.id) =
        (List.range (batchChunks (1 : ℤ).toNat rows0).length).map
          (fun j => "batch-" ++ natDecRepr (1 + j))) ∧
    ((rows0.length : ℤ) ≤ (1 : ℤ) →
      tabsBatch0.filter (fun t => t.type == TabType.batch) = []) :=
  c8_confirmed rows0 tpl0 24 "{id},{name}" 1 tabsBatch0 (by norm_num) (by decide)
    (by decide) (by decide)

/-- C6 counterexample: the placeholder identifier `(` makes the source
build `new RegExp("\x7b(\x7d", "g")` — only braces are escaped — which
throws `SyntaxError: unterminated group`, so expansion is **not**
defined for arbitrary identifiers containing regex metacharacters; the
embedding reports the unmodelled-regex error for exactly these
placeholders. -/
theorem c6_counterexample :
    generateSqlTabs [[("a", Value.vNum (JSNumber.finite (Dec.ofInt 1)))]] 1000
        "VALUES ({(})" =
      .error "regex for placeholder not modelled (JS may throw SyntaxError): {(}" ∧
    regexSafePlaceholder "{(}" = false := by
  exact ⟨by decide, by decide⟩

/-- C6 (corrected): for every non-empty RowSet, batch size ≥ 1 and
template whose `VALUES (...)` clause is found with a non-empty capture
and whose placeholder identifiers contain no regular-expression
metacharacter, expansion is defined and returns a complete list of
script variants without raising; identifiers containing metacharacters
such as `(` can abort expansion with a pattern-syntax error, and an
empty capture (template `VALUES ()`) is rejected by the source's
`!valuesMatch[1]` check before any substitution. -/
theorem c6_amended (rows : List Row) (b : ℤ) (tpl : String) (idx : Nat) (rt : String)
    (hb : 1 ≤ b)
    (hinc : jsIncludes (jsToLower tpl) "values" = true)
    (hfv : findValuesClause tpl = some (idx, rt))
    (hrt : rt ≠ "")
    (hsafe : ∀ ph ∈ findPlaceholders rt, regexSafePlaceholder ph = true) :
    ∃ tabs, generateSqlTabs rows b tpl = .ok tabs := by
  obtain ⟨allStrs, ha⟩ :=
    mapME_ok (processRowAll rt) rows (fun r _ => processRowAll_ok rt hsafe r)
  obtain ⟨cls, hc⟩ :=
    mapME_ok (processRowClassify rt) rows (fun r _ => processRowClassify_ok rt hsafe r)
  simp only [generateSqlTabs, hinc, if_true, hfv, ha, hc]
  rw [if_neg hrt]
  by_cases hlen : b < (rows.length : ℤ)
  · rw [if_pos hlen, if_pos hb]
    obtain ⟨bt, hbt⟩ := buildBatches_ok rt
      (if jsIncludes (jsToLower tpl) "insert into"
       then takeChars tpl idx ++ "VALUES\n" else "VALUES\n")
      b.toNat hsafe rows.length 1 rows
    simp only [hbt]
    exact ⟨_, rfl⟩
  · rw [if_neg hlen]
    exact ⟨_, rfl⟩

/-- C6 witness: the amended claim at the concrete RowSet and template of
the spec scenario with batch size 1. -/
theorem c6_witness : ∃ tabs, generateSqlTabs rows0 1 tpl0 = .ok tabs :=
  c6_amended rows0 1 tpl0 24 "{id},{name}" (by norm_num) (by decide) (by decide)
    (by decide) (by decide)

/-- C5 counterexample: the token `Infinity` coerces to the **number**
`Infinity` — the source guards with `isNaN`, not with a finiteness
check — so it is not returned as a string, refuting the claim's
finite-number biconditional. -/
theorem c5_counterexample :
    coerceTSVToken "Infinity" = Value.vNum JSNumber.posInf ∧
    coerceTSVToken "Infinity" ≠ Value.vStr "Infinity" := by
  exact ⟨by decide, by decide⟩

/-- C5 (corrected): value coercion returns null exactly when the
processed token (trimmed for TSV; quote-stripped for CSV, whose tokens
arrive pre-trimmed from the line splitter) is empty or equals `null`
case-insensitively; returns a number exactly when the processed token is
non-empty, is not `null`, and its numeric parse does not yield `NaN`
(so `Infinity` yields the number Infinity — the source guards with
`isNaN`, not a finiteness check); and otherwise returns the processed
token as a string unchanged.  The spec's round-trip — coercion applied
to the canonical decimal text of a finite number returns that number —
is formalised on the integers of magnitude at most `2 ^ 53`, exactly the
range in which the engine's doubles represent integer texts exactly
(beyond it the program rounds to the nearest double, which the
exact-decimal model does not capture, so nothing is claimed there). -/
theorem c5_amended :
    (∀ tok : String,
      coerceTSVToken tok =
        (if jsTrim tok = "" ∨ jsToLower (jsTrim tok) = "null" then Value.vNull
         else
           match strToNumber (jsTrim tok) with
           | .nan => Value.vStr (jsTrim tok)
           | j => Value.vNum j)) ∧
    (∀ tok : String,
      coerceCSVToken tok =
        (if stripEdgeQuotes tok = "" ∨ jsToLower (stripEdgeQuotes tok) = "null"
         then Value.vNull
         else
           match strToNumber (stripEdgeQuotes tok) with
           | .nan => Value.vStr (stripEdgeQuotes tok)
           | j => Value.vNum j)) ∧
    (∀ z : ℤ, z.natAbs ≤ 2 ^ 53 →
      coerceTSVToken (intDecRepr z) = Value.vNum (.finite (Dec.ofInt z))) := by
  refine ⟨?_, ?_, ?_⟩
  · intro tok
    by_cases hcond : jsTrim tok = "" ∨ jsToLower (jsTrim tok) = "null"
    · simp [coerceTSVToken, hcond]
    · have hv : jsTrim tok ≠ "" := fun he => hcond (Or.inl he)
      cases h : strToNumber (jsTrim tok) with
      | nan => simp [coerceTSVToken, hcond, h]
      | posInf => simp [coerceTSVToken, hcond, h, hv]
      | negInf => simp [coerceTSVToken, hcond, h, hv]
      | finite q => simp [coerceTSVToken, hcond, h, hv]
  · intro tok
    by_cases hcond : stripEdgeQuotes tok = "" ∨ jsToLower (stripEdgeQuotes tok) = "null"
    · simp [coerceCSVToken, hcond]
    · have hv : stripEdgeQuotes tok ≠ "" := fun he => hcond (Or.inl he)
      cases h : strToNumber (stripEdgeQuotes tok) with
      | nan => simp [coerceCSVToken, hcond, h]
      | posInf => simp [coerceCSVToken, hcond, h, hv]
      | negInf => simp [coerceCSVToken, hcond, h, hv]
      | finite q => simp [coerceCSVToken, hcond, h, hv]
  · intro z _hz
    obtain ⟨htrim, hne, hnull⟩ := intDecRepr_props z
    have hnum := strToNumber_intDecRepr z
    simp only [coerceTSVToken]
    rw [htrim]
    simp [hne, hnull, hnum]

/-- C2 counterexample: for the single-row RowSet `[{a:1, b:null}]` and
the aggregate template `S {{a}} {{b}}`, a `WITHOUT-NULL` variant **is**
produced although the aggregate key `b` has no non-null value in any
row — the source tests `.some(...)` over the aggregate keys, not
`.every(...)` — refuting the claim's only-if direction. -/
theorem c2_counterexample :
    ((generateSqlScriptAgg rowsAB tplAB).any
        (fun t => t.type == TabType.withoutNull)) = true ∧
    (rowsAB.any (fun r => rowHasVal r "b")) = false ∧
    "{{b}}" ∈ findAggPlaceholders tplAB ∧
    stripDoubleBraces "{{b}}" = "b" := by
  refine ⟨by decide, by decide, by decide, by decide⟩

/-- C2 (corrected): in aggregate mode the `WITHOUT-NULL` variant is
produced if and only if **at least one** aggregate key has a non-null,
non-undefined value in some row; when produced, its row count equals
the number of rows in which **all** aggregate keys are non-null and
non-undefined. -/
theorem c2_amended (rows : List Row) (tpl : String)
    (_hagg : findAggPlaceholders tpl ≠ []) :
    (((generateSqlScriptAgg rows tpl).any (fun t => t.type == TabType.withoutNull)) =
      (findAggPlaceholders tpl).any
        (fun ph => rows.any (fun r => rowHasVal r (stripDoubleBraces ph)))) ∧
    (∀ t ∈ generateSqlScriptAgg rows tpl, t.type = TabType.withoutNull →
      t.rowCount = (rows.filter
        (fun r => (findAggPlaceholders tpl).all
          (fun ph => rowHasVal r (stripDoubleBraces ph)))).length) := by
  by_cases h : ((findAggPlaceholders tpl).any
      (fun ph => rows.any (fun r => rowHasVal r (stripDoubleBraces ph)))) = true
  · constructor
    · simp [generateSqlScriptAgg, h]
    · intro t ht htt
      simp only [generateSqlScriptAgg, h, if_true] at ht
      rw [List.mem_cons, List.mem_singleton] at ht
      rcases ht with rfl | rfl
      · exact absurd htt (by simp)
      · rfl
  · rw [Bool.not_eq_true] at h
    constructor
    · simp [generateSqlScriptAgg, h]
    · intro t ht htt
      simp only [generateSqlScriptAgg, h, Bool.false_eq_true, if_false] at ht
      rw [List.mem_singleton] at ht
      rw [ht] at htt
      exact absurd htt (by simp)

/-- C2 witness: the amended claim at the concrete RowSet and aggregate
template. -/
theorem c2_witness :
    (((generateSqlScriptAgg rowsAB tplAB).any
        (fun t => t.type == TabType.withoutNull)) =
      (findAggPlaceholders tplAB).any
        (fun ph => rowsAB.any (fun r => rowHasVal r (stripDoubleBraces ph)))) ∧
    (∀ t ∈ generateSqlScriptAgg rowsAB tplAB, t.type = TabType.withoutNull →
      t.rowCount = (rowsAB.filter
        (fun r => (findAggPlaceholders tplAB).all
          (fun ph => rowHasVal r (stripDoubleBraces ph)))).length) :=
  c2_amended rowsAB tplAB (by decide)

/-- C10 (confirmed): in aggregate mode, whenever both an `ALL` and a
`WITHOUT-NULL` variant are produced, their script texts are identical
strings — both branches substitute the same deduplicated, null-dropped
value list for every aggregate token — and only the reported row counts
can differ. -/
theorem c10_confirmed (rows : List Row) (tpl : String) (t u : SqlTab)
    (ht : t ∈ generateSqlScriptAgg rows tpl) (htt : t.type = TabType.all)
    (hu : u ∈ generateSqlScriptAgg rows tpl) (hut : u.type = TabType.withoutNull) :
    t.script = u.script := by
  by_cases h : ((findAggPlaceholders tpl).any
      (fun ph => rows.any (fun r => rowHasVal r (stripDoubleBraces ph)))) = true
  · simp only [generateSqlScriptAgg, h, if_true] at ht hu
    rw [List.mem_cons, List.mem_singleton] at ht hu
    rcases ht with rfl | rfl
    · rcases hu with rfl | rfl
      · exact absurd hut (by simp)
      · rfl
    · exact absurd htt (by simp)
  · rw [Bool.not_eq_true] at h
    simp only [generateSqlScriptAgg, h, Bool.false_eq_true, if_false] at hu
    rw [List.mem_singleton] at hu
    rw [hu] at hut
    exact absurd hut (by simp)

/-- C10 witness: the confirmed claim at the concrete RowSet and
aggregate template, whose two variants carry the identical script
`S 1 `. -/
theorem c10_witness :
    (⟨"all", "ALL", "S 1 ", 1, .all⟩ : SqlTab).script =
    (⟨"without-null", "Without NULL values", "S 1 ", 0, .withoutNull⟩ : SqlTab).script :=
  c10_confirmed rowsAB tplAB _ _ (by decide) rfl (by decide) rfl

/-- C5 witness: the amended claim's round-trip conjunct at the concrete
integer 42, whose magnitude is within the exactly-representable
range. -/
theorem c5_witness :
    coerceTSVToken (intDecRepr 42) = Value.vNum (.finite (Dec.ofInt 42)) :=
  c5_amended.2.2 42 (by norm_num)

/-- C3 witness: the amended claim's error branch at a concrete failing
parser and prior state. -/
theorem c3_witness :
    (processManualData (fun _ => .error "boom") "x" stateEx).sqlTabs = stateEx.sqlTabs ∧
    (processManualData (fun _ => .error "boom") "x" stateEx).jsonData = none := by
  have h := c3_amended (fun _ => .error "boom") "x" stateEx (by decide)
  exact ⟨(h.1 "boom" rfl).2.2.1, (h.1 "boom" rfl).2.1⟩

end SqlGen
